import Mathlib

/-!
Verification development for the aicommit repository (Go).

The Go sources are shallowly embedded: strings are Lean strings (lists of
characters; the status letters, separators and keywords involved are all
ASCII, so byte indexing in Go coincides with character indexing here),
machine integers are Int, and every Go helper used by the claims is
translated into an executable Lean definition carrying the same name.
-/

/-! ## Models of the Go standard-library string functions -/

/-- Model of the byte NUL used as field separator by git -z output. -/
def nulChar : Char := Char.ofNat 0

/-- Characters treated as white space by Go strings.TrimSpace (ASCII part of
unicode.IsSpace). -/
def isGoSpace (c : Char) : Bool :=
  c = ' ' || c = '\t' || c = '\n' || c = Char.ofNat 11 || c = Char.ofNat 12 || c = '\r'

/-- Characters matched by the regexp class backslash-s in Go (RE2). -/
def isReSpace (c : Char) : Bool :=
  c = ' ' || c = '\t' || c = '\n' || c = Char.ofNat 12 || c = '\r'

/-- ASCII lower-casing of one character, as Go strings.ToLower acts on the
ASCII inputs relevant here. -/
def charToLowerGo (c : Char) : Char :=
  if 'A' ≤ c ∧ c ≤ 'Z' then Char.ofNat (c.toNat + 32) else c

/-- Model of Go strings.ToLower. -/
def goToLower (s : String) : String :=
  String.mk (s.toList.map charToLowerGo)

/-- Model of Go strings.TrimSpace. -/
def goTrimSpace (s : String) : String :=
  String.mk (((s.toList.dropWhile isGoSpace).reverse.dropWhile isGoSpace).reverse)

/-- Is the first list a prefix of the second (on characters). -/
def listIsPre : List Char → List Char → Bool
  | [], _ => true
  | _ :: _, [] => false
  | a :: as, b :: bs => (a == b) && listIsPre as bs

/-- Does the first list occur as a contiguous run inside the second. -/
def listInfix (sub : List Char) : List Char → Bool
  | [] => sub.isEmpty
  | c :: rest => listIsPre sub (c :: rest) || listInfix sub rest

/-- Model of Go strings.Contains. -/
def goContains (s sub : String) : Bool :=
  listInfix sub.toList s.toList

/-- Model of Go strings.HasPrefix. -/
def goHasPre (s pre : String) : Bool :=
  listIsPre pre.toList s.toList

/-- Model of Go strings.HasSuffix. -/
def goHasSuf (s suf : String) : Bool :=
  listIsPre suf.toList.reverse s.toList.reverse

/-- First character of the string as a one character string, the model of the
Go slice s[:1] on the ASCII statuses involved; empty input gives the empty
string. -/
def strTake (s : String) (n : Nat) : String :=
  String.mk (s.toList.take n)

/-- Model of Go strings.Contains(s, tab). -/
def containsTab (s : String) : Bool :=
  s.toList.any (fun c => c == '\t')

/-- Model of Go bytes.Split / strings.Split with a one character separator:
every occurrence splits, empty pieces are kept. -/
def splitOnChar (sep : Char) : List Char → List (List Char)
  | [] => [[]]
  | c :: rest =>
    if c = sep then [] :: splitOnChar sep rest
    else
      match splitOnChar sep rest with
      | [] => [[c]]
      | p :: ps => (c :: p) :: ps

/-- String-level wrapper for splitOnChar. -/
def goSplitChar (s : String) (sep : Char) : List String :=
  (splitOnChar sep s.toList).map String.mk

/-- Split at the first occurrence of the separator, if any. -/
def splitFirst (sep : Char) : List Char → Option (List Char × List Char)
  | [] => none
  | c :: rest =>
    if c = sep then some ([], rest)
    else (splitFirst sep rest).map (fun p => (c :: p.1, p.2))

/-- Model of Go strings.SplitN with a one character separator and n above
zero: at most n pieces, the final piece keeps the remaining separators. -/
def splitNAux (sep : Char) : Nat → List Char → List (List Char)
  | 0, _ => []
  | 1, l => [l]
  | Nat.succ (Nat.succ m), l =>
    match splitFirst sep l with
    | none => [l]
    | some (a, b) => a :: splitNAux sep (m + 1) b

/-- String-level wrapper for splitNAux. -/
def goSplitN (s : String) (sep : Char) (n : Nat) : List String :=
  (splitNAux sep n s.toList).map String.mk

/-- Digit run parser backing the model of Go strconv.Atoi. -/
def parseDigits (l : List Char) : Option Nat :=
  if l.isEmpty then none
  else if l.all (fun c => c.isDigit) then
    some (l.foldl (fun acc c => acc * 10 + (c.toNat - 48)) 0)
  else none

/-- Model of Go strconv.Atoi: optional sign, then at least one digit and
nothing else (overflow is ignored, no claim depends on it). -/
def goAtoi (s : String) : Option Int :=
  match s.toList with
  | '-' :: rest => (parseDigits rest).map (fun n => -(n : Int))
  | '+' :: rest => (parseDigits rest).map (fun n => (n : Int))
  | l => (parseDigits l).map (fun n => (n : Int))

/-- Model of Go path/filepath.Base on slash separated paths. -/
def filepathBase (p : String) : String :=
  if p = "" then "."
  else
    let cs := p.toList.reverse.dropWhile (fun c => c == '/')
    if cs.isEmpty then "/"
    else String.mk (cs.takeWhile (fun c => !(c == '/'))).reverse

/-- Model of Go path/filepath.Ext: the suffix starting at the final dot of the
final path element, empty when there is none. -/
def filepathExtAux : List Char → List Char → Option (List Char)
  | _, [] => none
  | acc, c :: rest =>
    if c = '/' then none
    else if c = '.' then some ('.' :: acc)
    else filepathExtAux (c :: acc) rest

/-- Model of Go path/filepath.Ext. -/
def filepathExt (p : String) : String :=
  match filepathExtAux [] p.toList.reverse with
  | none => ""
  | some l => String.mk l

/-! ## Data model (types.go) -/

/-- Go type Mode (a string type). -/
abbrev Mode := String

def ModeAuto : Mode := "auto"
def ModeStaged : Mode := "staged"
def ModeUnstaged : Mode := "unstaged"
def ModeAll : Mode := "all"

/-- Go type Format (a string type). -/
abbrev Format := String

def FormatConventional : Format := "conventional"
def FormatPlain : Format := "plain"
def FormatGitmoji : Format := "gitmoji"

/-- Go type BodyMode (a string type). -/
abbrev BodyMode := String

def BodyAuto : BodyMode := "auto"
def BodyNone : BodyMode := "none"
def BodyFiles : BodyMode := "files"
def BodyStats : BodyMode := "stats"
def BodySummary : BodyMode := "summary"

/-- Go struct Change. Source has Go type Mode, an alias of String. -/
structure Change where
  Path : String
  OldPath : String
  Status : String
  Source : String
deriving DecidableEq, Repr

/-- Go struct FileStat. Added and Deleted are Go ints, modelled as Int. -/
structure FileStat where
  Path : String
  Added : Int
  Deleted : Int
  Binary : Bool
deriving DecidableEq, Repr

/-- Go struct Options, restricted to the non-LLM fields the core pipeline
reads. Mode, Format and Body have Go string alias types. -/
structure Options where
  Mode : String
  Format : String
  Lang : String
  «Type» : String
  Scope : String
  Breaking : Bool
  Body : String
  MaxItems : Int
  MaxSubject : Int
  Emoji : Bool
  Explain : Bool
  Copy : Bool
  Refs : List String
  Closes : List String
deriving DecidableEq, Repr

/-! ## git.go: parsing of name-status, untracked and numstat output -/

/-- The statusChar computation of parseNameStatus: the status string itself
when empty, its first character otherwise. -/
def statusChar (st : String) : String :=
  if st = "" then st else strTake st 1

/-- Loop body of parseNameStatus in git.go: a cursor walk over the NUL split
field list. Renames and copies arrive either as one tab joined field followed
by the new path, or as three separate fields; truncated trailing input makes
the loop break, keeping the records collected so far. -/
def parseNS : List String → Mode → List Change
  | [], _ => []
  | entry :: rest, source =>
    if entry = "" then parseNS rest source
    else if containsTab entry then
      match goSplitN entry '\t' 2 with
      | [st, p] =>
        let sc := statusChar st
        if sc = "R" ∨ sc = "C" then
          match rest with
          | [] => []
          | newPath :: rest2 =>
            { Path := newPath, OldPath := p, Status := sc, Source := source }
              :: parseNS rest2 source
        else
          { Path := p, OldPath := "", Status := sc, Source := source } :: parseNS rest source
      | _ => parseNS rest source
    else
      let sc := statusChar entry
      if sc = "R" ∨ sc = "C" then
        match rest with
        | oldf :: newf :: rest2 =>
          (if oldf ≠ "" ∧ newf ≠ "" then
            [{ Path := newf, OldPath := oldf, Status := sc, Source := source }]
           else []) ++ parseNS rest2 source
        | _ => []
      else
        match rest with
        | [] => []
        | pf :: rest2 =>
          (if pf ≠ "" then
            [{ Path := pf, OldPath := "", Status := sc, Source := source }]
           else []) ++ parseNS rest2 source

/-- git.go parseNameStatus: empty input gives nil, otherwise split the raw
bytes on NUL and walk the fields. -/
def parseNameStatus (data : String) (source : Mode) : List Change :=
  if data = "" then []
  else parseNS (goSplitChar data nulChar) source

/-- git.go parseUntracked: plain NUL split, each field is trimmed and empty
results are skipped; status U, source unstaged. -/
def parseUntracked (data : String) : List Change :=
  if data = "" then []
  else
    (goSplitChar data nulChar).filterMap fun f =>
      let path := goTrimSpace f
      if path = "" then none
      else some { Path := path, OldPath := "", Status := "U", Source := ModeUnstaged }

/-- Assignment into the byPath map of mergeChanges, modelled on an
association list keyed by Path: replace the entry when present, append
otherwise. -/
def upsert (m : List Change) (ch : Change) : List Change :=
  if m.any (fun e => e.Path == ch.Path) then
    m.map (fun e => if e.Path == ch.Path then ch else e)
  else m ++ [ch]

/-- Body of the unstaged loop of mergeChanges: on a path hit the staged
record wins with its Source rewritten to ModeAll, otherwise the unstaged
record is inserted with Source ModeAll. -/
def mergeStep (acc : List Change) (ch : Change) : List Change :=
  match acc.find? (fun e => e.Path == ch.Path) with
  | some existing => upsert acc { existing with Source := ModeAll }
  | none => upsert acc { ch with Source := ModeAll }

/-- git.go mergeChanges: seed the map with the staged records, then fold the
unstaged records in with mergeStep. -/
def mergeChanges (staged unstaged : List Change) : List Change :=
  let m := staged.foldl upsert []
  unstaged.foldl mergeStep m

/-- One line of git.go parseNumstat: trim, skip blanks, split into at most
three tab fields, a dash pair marks a binary file, otherwise both counters
must parse as integers or the line is skipped. -/
def parseNumstatLine (line : String) : Option FileStat :=
  let line := goTrimSpace line
  if line = "" then none
  else
    match goSplitN line '\t' 3 with
    | addStr :: delStr :: path :: _ =>
      if addStr = "-" ∧ delStr = "-" then
        some { Path := path, Added := 0, Deleted := 0, Binary := true }
      else
        match goAtoi addStr, goAtoi delStr with
        | some a, some d => some { Path := path, Added := a, Deleted := d, Binary := false }
        | _, _ => none
    | _ => none

/-- git.go parseNumstat over a whole raw block. -/
def parseNumstat (raw : String) : List FileStat :=
  if goTrimSpace raw = "" then []
  else (goSplitChar raw '\n').filterMap parseNumstatLine

/-- Merge one stat into the byPath map of collectNumstat appendStats: sum the
counters and OR the binary flags on a path hit. -/
def addStat (m : List FileStat) (st : FileStat) : List FileStat :=
  if m.any (fun e => e.Path == st.Path) then
    m.map fun e =>
      if e.Path == st.Path then
        { e with Added := e.Added + st.Added, Deleted := e.Deleted + st.Deleted,
                 Binary := e.Binary || st.Binary }
      else e
  else m ++ [st]

/-- git.go collectNumstat appendStats: no-op on an empty batch, otherwise
fold every stat into the combined list by path. -/
def appendStats (combined stats : List FileStat) : List FileStat :=
  if stats.isEmpty then combined else stats.foldl addStat combined

/-- git.go collectNumstat in mode all, with the two raw git outputs supplied
as inputs: parse the unstaged block, then the staged block, combining
duplicate paths. -/
def collectNumstatAll (unstagedRaw stagedRaw : String) : List FileStat :=
  appendStats (appendStats [] (parseNumstat unstagedRaw)) (parseNumstat stagedRaw)

/-! ## detect.go: path categorization and type detection -/

def catDocs : String := "docs"
def catTest : String := "test"
def catCI : String := "ci"
def catBuild : String := "build"
def catChore : String := "chore"
def catCode : String := "code"

/-- detect.go categorizePath: the ordered first-match rule table over the
lowercased path, basename and extension. -/
def categorizePath (path : String) : String :=
  let lower := goToLower path
  let base := goToLower (filepathBase path)
  let ext := goToLower (filepathExt path)
  if lower = "readme" || goHasPre lower "readme." || goHasPre lower "changelog" ||
     goHasPre lower "license" || goHasPre lower "contributing" then catDocs
  else if goHasPre lower "docs/" || ext = ".md" || ext = ".rst" || ext = ".adoc" then catDocs
  else if goContains lower "/test/" || goContains lower "/tests/" ||
          goHasSuf base "_test.go" || goContains base ".spec." || goContains base ".test." then
    catTest
  else if goHasPre lower ".github/workflows/" || goHasPre lower ".github/actions/" ||
          goHasPre lower ".circleci/" || goHasPre lower ".gitlab-ci" ||
          base = "jenkinsfile" || base = "azure-pipelines.yml" || base = "appveyor.yml" then
    catCI
  else if base = "makefile" || base = "dockerfile" || base = "go.mod" || base = "go.sum" ||
          base = "package.json" || base = "package-lock.json" || base = "pnpm-lock.yaml" ||
          base = "yarn.lock" || base = "cargo.toml" || base = "cargo.lock" || base = "pom.xml" ||
          base = "build.gradle" || base = "build.gradle.kts" || base = "settings.gradle" ||
          base = "settings.gradle.kts" || base = "gradle.properties" || base = "cmakelists.txt" then
    catBuild
  else if goHasPre lower "build/" || goHasPre lower "docker/" || goHasPre lower "vendor/" ||
          goHasPre lower "third_party/" then catBuild
  else if goHasPre lower "scripts/" || goHasPre lower "tools/" || goHasPre lower "config/" ||
          goHasPre lower ".vscode/" then catChore
  else if base = ".gitignore" || base = ".gitattributes" || base = ".editorconfig" ||
          goHasPre base ".prettierrc" || goHasPre base ".eslintrc" || base = "tsconfig.json" ||
          base = "eslint.config.js" || base = ".pre-commit-config.yaml" || base = "ruff.toml" then
    catChore
  else catCode

/-- The per-category tally the detectType loop accumulates in its counts map:
counts of changes whose path categorizes as the given category. -/
def countCat (changes : List Change) (cat : String) : Nat :=
  (changes.filter (fun ch => categorizePath ch.Path == cat)).length

/-- detect.go detectType loop flag hasNewCodeFile. -/
def hasNewCodeFile (changes : List Change) : Bool :=
  changes.any fun ch =>
    categorizePath ch.Path == catCode &&
      (ch.Status == "A" || ch.Status == "U" || ch.Status == "C")

/-- detect.go detectType loop flag hasPerfHint. -/
def hasPerfHint (changes : List Change) : Bool :=
  changes.any fun ch =>
    goContains (goToLower ch.Path) "perf" || goContains (goToLower ch.Path) "optimiz"

/-- detect.go detectType loop flag hasRefactorHint: note that only the words
refactor and cleanup are looked for on paths. -/
def hasRefactorHint (changes : List Change) : Bool :=
  changes.any fun ch =>
    goContains (goToLower ch.Path) "refactor" || goContains (goToLower ch.Path) "cleanup"

/-- detect.go detectType loop flag hasStyleHint. -/
def hasStyleHint (changes : List Change) : Bool :=
  changes.any fun ch =>
    goContains (goToLower ch.Path) "lint" || goContains (goToLower ch.Path) "format" ||
      goContains (goToLower ch.Path) "style"

/-- detect.go dominantNonCode: a running-maximum fold over the priority order
with bestCount seeded at minus one; chore when nothing is positive. -/
def dominantNonCode (counts : String → Nat) : String :=
  let r := [catDocs, catTest, catCI, catBuild, catChore].foldl
    (fun (acc : String × Int) cat =>
      if (counts cat : Int) > acc.2 then (cat, (counts cat : Int)) else acc)
    (catChore, -1)
  if r.2 ≤ 0 then "chore" else r.1

/-- detect.go isDiffHeader. -/
def isDiffHeader (line : String) : Bool :=
  goHasPre line "+++" || goHasPre line "---" || goHasPre line "@@" ||
    goHasPre line "diff " || goHasPre line "index "

/-- detect.go diffHasKeyword: scan the plus and minus content lines of the
raw diff, skipping headers, and look for any keyword in the lowered trimmed
content. -/
def diffHasKeyword (diff : String) (keywords : List String) : Bool :=
  if diff = "" then false
  else
    let lowerKeywords := keywords.map goToLower
    (goSplitChar diff '\n').any fun line =>
      match line.toList with
      | [] => false
      | c :: rest =>
        if isDiffHeader line then false
        else if c == '+' || c == '-' then
          let content := goToLower (goTrimSpace (String.mk rest))
          lowerKeywords.any fun kw => goContains content kw
        else false

/-! Models of the three exported-symbol regular expressions of detect.go.
Each is anchored at the start of the trimmed content line; alternation and
the optional groups are resolved with explicit fallbacks matching the
leftmost-first backtracking of the Go engine on these patterns. -/

/-- Literal prefix matcher: consume the given characters or fail. -/
def stripLit : List Char → List Char → Option (List Char)
  | [], cs => some cs
  | _ :: _, [] => none
  | k :: ks, c :: cs => if c = k then stripLit ks cs else none

/-- One or more regexp white space characters, consumed greedily. -/
def reSpaces1 : List Char → Option (List Char)
  | [] => none
  | c :: rest => if isReSpace c then some (rest.dropWhile isReSpace) else none

def isUpperAZ (c : Char) : Bool := 'A' ≤ c && c ≤ 'Z'

def isIdentChar (c : Char) : Bool :=
  ('A' ≤ c && c ≤ 'Z') || ('a' ≤ c && c ≤ 'z') || ('0' ≤ c && c ≤ '9') || c = '_'

/-- The captured group: an upper case letter followed by identifier
characters, matched greedily. -/
def matchUpperIdent : List Char → Option (List Char)
  | [] => none
  | c :: rest => if isUpperAZ c then some (c :: rest.takeWhile isIdentChar) else none

/-- Keyword followed by white space followed by the captured identifier. -/
def kwIdent (kw : String) (cs : List Char) : Option (List Char) :=
  match stripLit kw.toList cs with
  | none => none
  | some r1 =>
    match reSpaces1 r1 with
    | none => none
    | some r2 => matchUpperIdent r2

/-- The optional Go receiver group: open paren, one or more non paren
characters, close paren, white space. -/
def matchRecv : List Char → Option (List Char)
  | '(' :: rest =>
    let inner := rest.takeWhile (fun c => !(c == ')'))
    if inner.isEmpty then none
    else
      match rest.drop inner.length with
      | ')' :: r2 => reSpaces1 r2
      | _ => none
  | _ => none

/-- The func branch of goExportedRe, with the optional receiver group and its
backtracking fallback. -/
def matchGoFunc (cs : List Char) : Option (List Char) :=
  match stripLit "func".toList cs with
  | none => none
  | some r1 =>
    match reSpaces1 r1 with
    | none => none
    | some r2 =>
      match matchRecv r2 with
      | some r3 =>
        match matchUpperIdent r3 with
        | some n => some n
        | none => matchUpperIdent r2
      | none => matchUpperIdent r2

/-- detect.go goExportedRe. -/
def matchGoExported (cs : List Char) : Option (List Char) :=
  match matchGoFunc cs with
  | some n => some n
  | none =>
    match kwIdent "type" cs with
    | some n => some n
    | none =>
      match kwIdent "var" cs with
      | some n => some n
      | none => kwIdent "const" cs

/-- Keyword alternation with backtracking: try each keyword in order, a
keyword whose continuation fails falls through to the next. -/
def tryKws : List String → List Char → Option (List Char)
  | [], _ => none
  | k :: ks, cs =>
    match kwIdent k cs with
    | some n => some n
    | none => tryKws ks cs

/-- detect.go jsExportedRe. -/
def matchJsExported (cs : List Char) : Option (List Char) :=
  match stripLit "export".toList cs with
  | none => none
  | some r1 =>
    match reSpaces1 r1 with
    | none => none
    | some r2 =>
      let kws := ["function", "class", "const", "let", "var", "interface", "type"]
      match stripLit "default".toList r2 with
      | some rd =>
        match reSpaces1 rd with
        | some r3 =>
          match tryKws kws r3 with
          | some n => some n
          | none => tryKws kws r2
        | none => tryKws kws r2
      | none => tryKws kws r2

/-- detect.go rustExportedRe. -/
def matchRustExported (cs : List Char) : Option (List Char) :=
  let kws := ["fn", "struct", "enum", "trait"]
  match stripLit "pub".toList cs with
  | some r1 =>
    match reSpaces1 r1 with
    | some r2 =>
      match tryKws kws r2 with
      | some n => some n
      | none => tryKws kws cs
    | none => tryKws kws cs
  | none => tryKws kws cs

/-- Set insertion preserving first-seen order, the model of the Go name
set. -/
def insertSet (acc : List String) (x : String) : List String :=
  if acc.contains x then acc else acc ++ [x]

/-- Insertion into a lexicographically sorted list. -/
def insertSorted (x : String) : List String → List String
  | [] => [x]
  | y :: ys => if x ≤ y then x :: y :: ys else y :: insertSorted x ys

/-- Model of Go sort.Strings. -/
def sortStrings (l : List String) : List String :=
  l.foldr insertSorted []

/-- detect.go findExportedNames: collect the capture of the first matching
dialect pattern on every qualifying line, dedupe, sort. -/
def findExportedNames (diff : String) (marker : Char) : List String :=
  if diff = "" then []
  else
    let names := (goSplitChar diff '\n').foldl
      (fun acc line =>
        match line.toList with
        | [] => acc
        | c :: rest =>
          if !(c == marker) then acc
          else if isDiffHeader line then acc
          else
            let content := (goTrimSpace (String.mk rest)).toList
            match matchGoExported content with
            | some n => insertSet acc (String.mk n)
            | none =>
              match matchJsExported content with
              | some n => insertSet acc (String.mk n)
              | none =>
                match matchRustExported content with
                | some n => insertSet acc (String.mk n)
                | none => acc)
      []
    sortStrings names

/-- detect.go detectType: the ordered policy, first applicable rule wins. -/
def detectType (changes : List Change) (diff : String) (opts : Options) :
    String × List String :=
  if opts.«Type» ≠ "" then (goToLower opts.«Type», ["type override"])
  else if countCat changes catCode = 0 then
    (dominantNonCode (fun cat => countCat changes cat), ["only non-code files"])
  else if hasPerfHint changes || diffHasKeyword diff ["perf", "optimiz", "speed"] then
    ("perf", ["performance hints"])
  else if hasRefactorHint changes || diffHasKeyword diff ["refactor", "cleanup", "restructure"] then
    ("refactor", ["refactor hints"])
  else if hasStyleHint changes || diffHasKeyword diff ["format", "lint", "style"] then
    ("style", ["style hints"])
  else if hasNewCodeFile changes || !(findExportedNames diff '+').isEmpty then
    ("feat", ["new code or exported symbols"])
  else ("fix", ["defaulted to fix"])

/-! ## render.go: subject trimming, message formatting, summary line -/

/-- render.go lowerFirst: lower the first character. -/
def lowerFirst (s : String) : String :=
  match s.toList with
  | [] => s
  | c :: rest => String.mk (charToLowerGo c :: rest)

/-- Index of the last space in the list, if any; the model of the backwards
loop in trimSubject. -/
def lastSpaceIdx : List Char → Option Nat
  | [] => none
  | c :: rest =>
    match lastSpaceIdx rest with
    | some i => some (i + 1)
    | none => if c = ' ' then some 0 else none

/-- render.go trimSubject: no-op when the maximum is not positive or the
subject fits; otherwise hard cut at max characters, backtrack to the last
space, fall back to the hard cut when the cut point is below three, and trim
the result. -/
def trimSubject (s : String) (max : Int) : String :=
  if max ≤ 0 then s
  else
    let runes := s.toList
    if (runes.length : Int) ≤ max then s
    else
      let runes := runes.take max.toNat
      let cut :=
        match lastSpaceIdx runes with
        | some i => i
        | none => runes.length
      let cut := if cut < 3 then max.toNat else cut
      goTrimSpace (String.mk (runes.take cut))

/-- render.go emojiCode. -/
def emojiCode (commitType : String) : String :=
  let ct := goToLower commitType
  if ct = "feat" then ":sparkles:"
  else if ct = "fix" then ":bug:"
  else if ct = "docs" then ":memo:"
  else if ct = "style" then ":art:"
  else if ct = "refactor" then ":recycle:"
  else if ct = "perf" then ":zap:"
  else if ct = "test" then ":white_check_mark:"
  else if ct = "build" then ":package:"
  else if ct = "ci" then ":construction_worker:"
  else if ct = "chore" then ":wrench:"
  else ""

/-- render.go formatMessage: lower and trim the subject, build the
conventional prefix for the prefixing formats, prepend the emoji code when
requested, then append the body after a blank line. -/
def formatMessage (commitType scope subject body : String) (opts : Options)
    (breaking : Bool) : String :=
  let subj :=
    if opts.Format = FormatConventional ∨ opts.Format = FormatGitmoji then lowerFirst subject
    else subject
  let subj := trimSubject subj opts.MaxSubject
  let pfx :=
    if opts.Format = FormatConventional ∨ opts.Format = FormatGitmoji then
      goToLower commitType ++ (if scope ≠ "" then "(" ++ scope ++ ")" else "") ++
        (if breaking then "!" else "") ++ ": "
    else ""
  let pfx :=
    if opts.Emoji = true ∨ opts.Format = FormatGitmoji then
      if emojiCode commitType ≠ "" then emojiCode commitType ++ " " ++ pfx else pfx
    else pfx
  let msg := pfx ++ subj
  if body ≠ "" then msg ++ "\n\n" ++ body else msg

/-- The per-status tally summaryLine accumulates in its counts map. -/
def statusCounts (changes : List Change) : String → Nat :=
  changes.foldl (fun m ch k => if k = ch.Status then m k + 1 else m k) (fun _ => 0)

/-- render.go summaryLine: total, added (A plus U), removed (D) and modified
(M) counts rendered in the requested language. -/
def summaryLine (changes : List Change) (lang : String) : String :=
  let counts := statusCounts changes
  let added := counts "A" + counts "U"
  let modified := counts "M"
  let deleted := counts "D"
  let total := changes.length
  if lang = "ru" then
    "Файлов изменено: " ++ toString total ++ " (добавлено " ++ toString added ++
      ", удалено " ++ toString deleted ++ ", изменено " ++ toString modified ++ ")"
  else
    "Files changed: " ++ toString total ++ " (added " ++ toString added ++ ", removed " ++
      toString deleted ++ ", modified " ++ toString modified ++ ")"

/-! ## Definitions modelled from the specification

The repository contains no parser for generated message prefixes and the
specification states claims in terms of such a re-parse (round-trip, section
8) and in its own wording of the trimming and category rules.  The
definitions below follow the words of the specification and of the claims;
they are compared against the source-derived definitions above. -/

/-- A character the prefix parser treats as ending the type token. -/
def isTyDelim (c : Char) : Bool := c == '(' || c == '!' || c == ':'

/-- Modelled from the spec: strip one leading emoji code of the form colon,
word, colon, space, as prepended by the final formatting step of section
4.4. -/
def stripEmojiCode (cs : List Char) : List Char :=
  match cs with
  | c :: rest =>
    if c = ':' then
      let code := rest.takeWhile (fun x => !(x == ':'))
      match rest.drop code.length with
      | c2 :: c3 :: rest2 => if c2 = ':' ∧ c3 = ' ' then rest2 else cs
      | _ => cs
    else cs
  | [] => cs

/-- Modelled from the spec: the optional scope segment of a conventional
prefix, open paren, scope, close paren. -/
def parseScopePart (cs : List Char) : Option (String × List Char) :=
  match cs with
  | c :: r =>
    if c = '(' then
      let sc := r.takeWhile (fun x => !(x == ')'))
      match r.drop sc.length with
      | c2 :: r2 => if c2 = ')' then some (String.mk sc, r2) else none
      | [] => none
    else some ("", cs)
  | [] => some ("", cs)

/-- Modelled from the spec: the optional breaking bang followed by the colon
space that closes the prefix. -/
def parseBangColon (cs : List Char) : Option (Bool × List Char) :=
  match cs with
  | c :: rest =>
    if c = '!' then
      match rest with
      | c2 :: c3 :: r => if c2 = ':' ∧ c3 = ' ' then some (true, r) else none
      | _ => none
    else if c = ':' then
      match rest with
      | c2 :: r => if c2 = ' ' then some (false, r) else none
      | _ => none
    else none
  | [] => none

/-- Modelled from the spec: parse a conventional prefix type(scope)!: after
any emoji code has been stripped. -/
def parsePrefixCore (cs : List Char) : Option (String × String × Bool) :=
  let ty := cs.takeWhile (fun c => !(isTyDelim c))
  if ty.isEmpty then none
  else
    match parseScopePart (cs.drop ty.length) with
    | none => none
    | some (sc, r) =>
      match parseBangColon r with
      | none => none
      | some (b, _) => some (String.mk ty, sc, b)

/-- Modelled from the spec: re-parse the prefix of a generated message,
recovering the type, scope and breaking flag (section 8 round-trip; the
repository itself has no such parser). -/
def parseMessageTriple (msg : String) : Option (String × String × Bool) :=
  parsePrefixCore (stripEmojiCode msg.toList)

/-- Modelled from the spec, claim C1 wording: the first category in the
priority order with a strictly positive count, chore when none. -/
def claimedDominant (counts : String → Nat) : String :=
  if 0 < counts catDocs then catDocs
  else if 0 < counts catTest then catTest
  else if 0 < counts catCI then catCI
  else if 0 < counts catBuild then catBuild
  else catChore

/-- The first category in the priority order whose count equals the given
value; used by the amended reading of claim C1. -/
def firstWithCount (counts : String → Nat) (m : Nat) : String :=
  if counts catDocs = m then catDocs
  else if counts catTest = m then catTest
  else if counts catCI = m then catCI
  else if counts catBuild = m then catBuild
  else catChore

/-- Amended reading of claim C1: the category with the maximum count, ties
broken by the priority order, chore when all counts are zero. -/
def amendedDominant (counts : String → Nat) : String :=
  let m := Nat.max (counts catDocs) (Nat.max (counts catTest)
    (Nat.max (counts catCI) (Nat.max (counts catBuild) (counts catChore))))
  if m = 0 then catChore else firstWithCount counts m

/-- Index of the last space, computed from the end as the claim C7 wording
backtracks: position of the first space of the reversed list. -/
def lastSpaceFromEnd (l : List Char) : Option Nat :=
  (l.reverse.findIdx? (fun c => c == ' ')).map (fun k => l.length - 1 - k)

/-- Trailing-only white space trim, as literally stated by claim C7. -/
def trimRightOnly (s : String) : String :=
  String.mk (s.toList.reverse.dropWhile isGoSpace).reverse

/-- Modelled from the spec, claim C7 wording as stated: cut at the maximum,
backtrack to the nearest preceding space (hard cut when none or when the cut
point is below three), and trim only trailing white space. -/
def claimedTrimSubject (s : String) (max : Int) : String :=
  if max ≤ 0 then s
  else if (s.toList.length : Int) ≤ max then s
  else
    let head := s.toList.take max.toNat
    let cut :=
      match lastSpaceFromEnd head with
      | some i => if i < 3 then max.toNat else i
      | none => max.toNat
    trimRightOnly (String.mk (head.take cut))

/-- Amended reading of claim C7: same cut rule, but the final trim removes
white space on both sides, as Go strings.TrimSpace does. -/
def specTrimSubject (s : String) (max : Int) : String :=
  if max ≤ 0 then s
  else if (s.toList.length : Int) ≤ max then s
  else
    let head := s.toList.take max.toNat
    let cut :=
      match lastSpaceFromEnd head with
      | some i => if i < 3 then max.toNat else i
      | none => max.toNat
    goTrimSpace (String.mk (head.take cut))

/-- A fixed option bag with no overrides, used by concrete scenarios. -/
def optsNone : Options :=
  { Mode := "auto", Format := "conventional", Lang := "en", «Type» := "", Scope := "",
    Breaking := false, Body := "auto", MaxItems := 8, MaxSubject := 72, Emoji := false,
    Explain := false, Copy := false, Refs := [], Closes := [] }

/-! ## General helper lemmas -/

theorem toList_append (s t : String) : (s ++ t).toList = s.toList ++ t.toList := by
  cases s; cases t; rfl

theorem mk_toList (s : String) : String.mk s.toList = s := by cases s; rfl

theorem eq_empty_iff_toList (s : String) : s = "" ↔ s.toList = [] := by
  rw [String.ext_iff]; cases s; simp [String.toList]

theorem takeWhile_append_all {p : Char → Bool} :
    ∀ (l₁ l₂ : List Char), (∀ a ∈ l₁, p a = true) →
      (l₁ ++ l₂).takeWhile p = l₁ ++ l₂.takeWhile p
  | [], l₂, _ => by simp
  | a :: as, l₂, h => by
    have ha : p a = true := h a (List.mem_cons_self a as)
    have ih := takeWhile_append_all as l₂ (fun x hx => h x (List.mem_cons_of_mem a hx))
    simp [List.takeWhile_cons, ha, ih]

theorem splitOnChar_append (sep : Char) :
    ∀ (l₁ l₂ : List Char), (∀ c ∈ l₁, ¬(c = sep)) →
      splitOnChar sep (l₁ ++ sep :: l₂) = l₁ :: splitOnChar sep l₂
  | [], l₂, _ => by simp [splitOnChar]
  | c :: cs, l₂, h => by
    have hc : ¬(c = sep) := h c (List.mem_cons_self c cs)
    have ih := splitOnChar_append sep cs l₂ (fun x hx => h x (List.mem_cons_of_mem c hx))
    simp only [List.cons_append, splitOnChar, if_neg hc, List.append_eq, ih]

theorem splitOnChar_no_sep (sep : Char) :
    ∀ (l : List Char), (∀ c ∈ l, ¬(c = sep)) → splitOnChar sep l = [l]
  | [], _ => rfl
  | c :: cs, h => by
    have hc : ¬(c = sep) := h c (List.mem_cons_self c cs)
    have ih := splitOnChar_no_sep sep cs (fun x hx => h x (List.mem_cons_of_mem c hx))
    simp only [splitOnChar, if_neg hc, ih]

theorem splitFirst_append (sep : Char) :
    ∀ (l₁ l₂ : List Char), (∀ c ∈ l₁, ¬(c = sep)) →
      splitFirst sep (l₁ ++ sep :: l₂) = some (l₁, l₂)
  | [], l₂, _ => by simp [splitFirst]
  | c :: cs, l₂, h => by
    have hc : ¬(c = sep) := h c (List.mem_cons_self c cs)
    have ih := splitFirst_append sep cs l₂ (fun x hx => h x (List.mem_cons_of_mem c hx))
    simp only [List.cons_append, splitFirst, if_neg hc, List.append_eq, ih]
    rfl

theorem findIdx?_cons_eq (p : Char → Bool) (a : Char) (l : List Char) :
    (a :: l).findIdx? p = if p a then some 0 else (l.findIdx? p).map (· + 1) := by
  simp [List.findIdx?_cons, List.findIdx?_succ]

theorem findIdx?_some_lt (p : Char → Bool) :
    ∀ (l : List Char) (k : Nat), l.findIdx? p = some k → k < l.length
  | [], k, h => by simp at h
  | a :: as, k, h => by
    rw [findIdx?_cons_eq] at h
    rw [List.length_cons]
    by_cases hp : p a
    · rw [if_pos hp] at h
      rw [Option.some_inj] at h
      omega
    · rw [if_neg hp] at h
      rcases hk : as.findIdx? p with _ | k2
      · rw [hk] at h; exact Option.noConfusion h
      · rw [hk] at h
        simp only [Option.map_some', Option.some_inj] at h
        have := findIdx?_some_lt p as k2 hk
        omega

theorem findIdx?_append_left (p : Char → Bool) :
    ∀ (l₁ l₂ : List Char) (i : Nat), l₁.findIdx? p = some i →
      (l₁ ++ l₂).findIdx? p = some i
  | [], _, i, h => by simp at h
  | a :: as, l₂, i, h => by
    rw [findIdx?_cons_eq] at h
    rw [List.cons_append, findIdx?_cons_eq]
    by_cases hp : p a
    · rw [if_pos hp] at h ⊢; exact h
    · rw [if_neg hp] at h ⊢
      rcases hk : as.findIdx? p with _ | k
      · rw [hk] at h; exact Option.noConfusion h
      · rw [hk] at h
        rw [findIdx?_append_left p as l₂ k hk]
        exact h

theorem findIdx?_append_right (p : Char → Bool) :
    ∀ (l₁ l₂ : List Char), l₁.findIdx? p = none →
      (l₁ ++ l₂).findIdx? p = (l₂.findIdx? p).map (· + l₁.length)
  | [], l₂, _ => by simp
  | a :: as, l₂, h => by
    rw [findIdx?_cons_eq] at h
    rw [List.cons_append, findIdx?_cons_eq]
    by_cases hp : p a
    · rw [if_pos hp] at h; simp at h
    · rw [if_neg hp] at h ⊢
      have hnone : as.findIdx? p = none := by
        rcases hk : as.findIdx? p with _ | k
        · rfl
        · rw [hk] at h; exact Option.noConfusion h
      rw [findIdx?_append_right p as l₂ hnone]
      cases l₂.findIdx? p
      · simp
      · simp [List.length_cons]
        omega

/-! ## Claim C10: summary line counts -/

theorem statusCounts_aux :
    ∀ (l : List Change) (m : String → Nat) (k : String),
      (l.foldl (fun m ch k => if k = ch.Status then m k + 1 else m k) m) k
        = m k + l.countP (fun ch => ch.Status == k)
  | [], m, k => by simp
  | ch :: l, m, k => by
    have ih := statusCounts_aux l (fun k => if k = ch.Status then m k + 1 else m k) k
    simp only [List.foldl_cons, List.countP_cons]
    rw [ih]
    by_cases h : k = ch.Status
    · have hb : (ch.Status == k) = true := by simp [h.symm]
      simp only [hb, if_pos h]
      clear ih
      simp
      try omega
    · have hb : (ch.Status == k) = false := by
        simp only [beq_eq_false_iff_ne, ne_eq]
        exact fun hh => h hh.symm
      simp only [hb, if_neg h]
      clear ih
      simp
      try omega

theorem statusCounts_eq_countP (changes : List Change) (k : String) :
    statusCounts changes k = changes.countP (fun ch => ch.Status == k) := by
  have := statusCounts_aux changes (fun _ => 0) k
  simpa [statusCounts] using this

/-- Claim C10 (confirmed): the summary line reports the total number of
records; added is the count of Added plus Untracked statuses, removed the
count of Deleted, modified the count of Modified; Renamed and Copied records
count only toward the total, so the three sub-counts can sum to strictly
less than the total, as the concrete one-rename instance shows. -/
theorem c10_summary_counts (changes : List Change) (lang : String) :
    (summaryLine changes lang =
      if lang = "ru" then
        "Файлов изменено: " ++ toString changes.length ++ " (добавлено " ++
          toString (changes.countP (fun ch => ch.Status == "A") +
            changes.countP (fun ch => ch.Status == "U")) ++
          ", удалено " ++ toString (changes.countP (fun ch => ch.Status == "D")) ++
          ", изменено " ++ toString (changes.countP (fun ch => ch.Status == "M")) ++ ")"
      else
        "Files changed: " ++ toString changes.length ++ " (added " ++
          toString (changes.countP (fun ch => ch.Status == "A") +
            changes.countP (fun ch => ch.Status == "U")) ++
          ", removed " ++ toString (changes.countP (fun ch => ch.Status == "D")) ++
          ", modified " ++ toString (changes.countP (fun ch => ch.Status == "M")) ++ ")") ∧
    summaryLine [{ Path := "a", OldPath := "b", Status := "R", Source := ModeAll }] "en"
      = "Files changed: 1 (added 0, removed 0, modified 0)" ∧ 0 + 0 + 0 < 1 := by
  refine ⟨?_, rfl, by omega⟩
  simp only [summaryLine, statusCounts_eq_countP]

/-! ## Claim C9: untracked listing parsing -/

theorem untracked_pipeline :
    ∀ (l : List String),
      (l.filterMap fun f =>
        if goTrimSpace f = "" then none
        else some { Path := goTrimSpace f, OldPath := "", Status := "U",
                    Source := ModeUnstaged }) =
      ((l.map goTrimSpace).filter (fun p => !(p == ""))).map
        (fun p => ({ Path := p, OldPath := "", Status := "U", Source := ModeUnstaged } : Change))
  | [] => rfl
  | a :: l => by
    have ih := untracked_pipeline l
    by_cases h : goTrimSpace a = ""
    · rw [List.filterMap_cons, List.map_cons, List.filter_cons]
      simp [h, ih]
    · rw [List.filterMap_cons, List.map_cons, List.filter_cons]
      simp [h, ih]

/-- Claim C9 counterexample: the parser trims each entry, so for the raw
entry consisting of a path surrounded by spaces the produced record path is
the trimmed form, not the entry itself as the claim states. -/
theorem c9_cex :
    parseUntracked " a " =
      [{ Path := "a", OldPath := "", Status := "U", Source := ModeUnstaged }] ∧
    ¬(("a" : String) = " a ") := ⟨rfl, by decide⟩

/-- Claim C9 (corrected): untracked parsing is a plain NUL split in which
every entry is white space trimmed; entries whose trimmed form is empty are
dropped, and each surviving entry yields one record whose path is the
trimmed entry, with status U and origin Unstaged. -/
theorem c9_amended (data : String) :
    parseUntracked data =
      (((goSplitChar data nulChar).map goTrimSpace).filter (fun p => !(p == ""))).map
        (fun p => ({ Path := p, OldPath := "", Status := "U", Source := ModeUnstaged } : Change)) := by
  unfold parseUntracked
  by_cases h : data = ""
  · subst h; rfl
  · rw [if_neg h]
    exact untracked_pipeline _

/-! ## Claim C2: the binary stat invariant -/

theorem parseNumstatLine_binary (line : String) (st : FileStat)
    (h : parseNumstatLine line = some st) (hb : st.Binary = true) :
    st.Added = 0 ∧ st.Deleted = 0 := by
  simp only [parseNumstatLine] at h
  split at h
  · exact absurd h (by simp)
  · split at h
    · split at h
      · rw [Option.some_inj] at h
        subst h
        exact ⟨rfl, rfl⟩
      · split at h
        · rw [Option.some_inj] at h
          subst h
          simp at hb
        · exact absurd h (by simp)
    · exact absurd h (by simp)

/-- Claim C2 counterexample: a path reported binary by one source and
numeric by the other combines, in mode all, into a record with the binary
flag set and non-zero counters, violating the claimed invariant. -/
theorem c2_cex :
    collectNumstatAll "-\t-\ta.bin" "3\t1\ta.bin"
      = [{ Path := "a.bin", Added := 3, Deleted := 1, Binary := true }] ∧
    ¬(∀ st ∈ collectNumstatAll "-\t-\ta.bin" "3\t1\ta.bin",
        st.Binary = true → st.Added = 0 ∧ st.Deleted = 0) := by
  refine ⟨rfl, ?_⟩
  intro hall
  have hmem : ({ Path := "a.bin", Added := 3, Deleted := 1, Binary := true } : FileStat)
      ∈ collectNumstatAll "-\t-\ta.bin" "3\t1\ta.bin" := by
    rw [show collectNumstatAll "-\t-\ta.bin" "3\t1\ta.bin"
      = [{ Path := "a.bin", Added := 3, Deleted := 1, Binary := true }] from rfl]
    exact List.mem_singleton.mpr rfl
  have := hall _ hmem rfl
  simp at this

/-- Claim C2 (corrected): the invariant binary implies zero counters holds
for every record produced by parseNumstat from one source; the mode all
combination of the two sources does not preserve it when a path is binary in
one source and numeric in the other. -/
theorem c2_amended (raw : String) (st : FileStat) (hmem : st ∈ parseNumstat raw)
    (hb : st.Binary = true) : st.Added = 0 ∧ st.Deleted = 0 := by
  unfold parseNumstat at hmem
  split at hmem
  · simp at hmem
  · obtain ⟨line, -, hline⟩ := List.mem_filterMap.mp hmem
    exact parseNumstatLine_binary line st hline hb

/-- Claim C2 witness: the amended invariant applied to the record parsed
from a concrete binary numstat line. -/
theorem c2_witness :
    ({ Path := "a", Added := 0, Deleted := 0, Binary := true } : FileStat).Added = 0 ∧
    ({ Path := "a", Added := 0, Deleted := 0, Binary := true } : FileStat).Deleted = 0 :=
  c2_amended "-\t-\ta" { Path := "a", Added := 0, Deleted := 0, Binary := true }
    (by decide) rfl

/-! ## Claim C7: subject trimming -/

theorem lastSpace_eq : ∀ (l : List Char), lastSpaceIdx l = lastSpaceFromEnd l
  | [] => rfl
  | c :: rest => by
    have ih := lastSpace_eq rest
    simp only [lastSpaceIdx, lastSpaceFromEnd, List.reverse_cons, List.length_cons] at *
    rcases hr : rest.reverse.findIdx? (fun c => c == ' ') with _ | k
    · rw [hr] at ih
      rw [findIdx?_append_right _ _ _ hr]
      rw [Option.map_none'] at ih
      rw [ih]
      by_cases hc : c = ' '
      · simp [findIdx?_cons_eq, hc, List.length_reverse]
      · simp [findIdx?_cons_eq, hc]
    · rw [hr] at ih
      rw [findIdx?_append_left _ _ _ _ hr]
      have hk : k < rest.length := by
        have := findIdx?_some_lt _ _ _ hr
        simpa [List.length_reverse] using this
      rw [Option.map_some'] at ih
      rw [Option.map_some']
      rw [ih]
      show some (rest.length - 1 - k + 1) = some (rest.length + 1 - 1 - k)
      congr 1
      omega

/-- Claim C7 counterexample: Go TrimSpace also removes leading white space,
so for a subject starting with spaces the code result differs from the
claimed trailing-only trim. -/
theorem c7_cex :
    trimSubject "  a bcdef" 5 = "a" ∧
    claimedTrimSubject "  a bcdef" 5 = "  a" ∧
    ¬(("a" : String) = "  a") := ⟨rfl, rfl, by decide⟩

/-- Claim C7 (corrected): for a positive maximum, a subject longer than the
maximum in characters is cut at the maximum, backtracked to the nearest
preceding space (hard cut when there is none or when the cut point is below
three characters), and trimmed of surrounding white space; a fitting subject
is returned unchanged. -/
theorem c7_amended (s : String) (max : Int) (h : 0 < max) :
    trimSubject s max = specTrimSubject s max := by
  have hmax : ¬(max ≤ 0) := by omega
  simp only [trimSubject, specTrimSubject, if_neg hmax]
  by_cases hlen : (s.toList.length : Int) ≤ max
  · simp only [if_pos hlen]
  · simp only [if_neg hlen]
    rw [← lastSpace_eq]
    have hl : (s.toList.take max.toNat).length = max.toNat := by
      rw [List.length_take]
      omega
    rcases hsp : lastSpaceIdx (s.toList.take max.toNat) with _ | i
    · rw [hl]
      simp
    · rfl

/-- Claim C7 witness: the corrected trimming rule applied to the concrete
scenario of the specification, maximum ten. -/
theorem c7_witness :
    (0 : Int) < 10 ∧
    trimSubject "Add feature across modules" 10
      = specTrimSubject "Add feature across modules" 10 :=
  ⟨by decide, c7_amended "Add feature across modules" 10 (by decide)⟩

/-! ## Claim C1: dominant non-code category -/

theorem max5_le {d t ci b ch z : Nat} (e1 : d ≤ z) (e2 : t ≤ z) (e3 : ci ≤ z)
    (e4 : b ≤ z) (e5 : ch ≤ z) :
    Nat.max d (Nat.max t (Nat.max ci (Nat.max b ch))) ≤ z :=
  Nat.max_le.mpr ⟨e1, Nat.max_le.mpr ⟨e2, Nat.max_le.mpr ⟨e3, Nat.max_le.mpr ⟨e4, e5⟩⟩⟩⟩

theorem dominantNonCode_eq_amended (counts : String → Nat) :
    dominantNonCode counts = amendedDominant counts := by
  simp only [dominantNonCode, amendedDominant, firstWithCount, List.foldl_cons,
    List.foldl_nil]
  generalize counts catDocs = d
  generalize counts catTest = t
  generalize counts catCI = ci
  generalize counts catBuild = b
  generalize counts catChore = ch
  have hub1 : d ≤ Nat.max d (Nat.max t (Nat.max ci (Nat.max b ch))) := Nat.le_max_left _ _
  have hub2 : t ≤ Nat.max d (Nat.max t (Nat.max ci (Nat.max b ch))) :=
    le_trans (Nat.le_max_left _ _) (Nat.le_max_right _ _)
  have hub3 : ci ≤ Nat.max d (Nat.max t (Nat.max ci (Nat.max b ch))) :=
    le_trans (le_trans (Nat.le_max_left _ _) (Nat.le_max_right _ _)) (Nat.le_max_right _ _)
  have hub4 : b ≤ Nat.max d (Nat.max t (Nat.max ci (Nat.max b ch))) :=
    le_trans (le_trans (le_trans (Nat.le_max_left _ _) (Nat.le_max_right _ _))
      (Nat.le_max_right _ _)) (Nat.le_max_right _ _)
  have hub5 : ch ≤ Nat.max d (Nat.max t (Nat.max ci (Nat.max b ch))) :=
    le_trans (le_trans (le_trans (Nat.le_max_right _ _) (Nat.le_max_right _ _))
      (Nat.le_max_right _ _)) (Nat.le_max_right _ _)
  rw [if_pos (show ((d:Int)) > -1 by omega)]
  dsimp only
  by_cases h1 : ((t:Int)) > ((d:Int))
  · rw [if_pos h1]
    dsimp only
    by_cases h2 : ((ci:Int)) > ((t:Int))
    · rw [if_pos h2]
      dsimp only
      by_cases h3 : ((b:Int)) > ((ci:Int))
      · rw [if_pos h3]
        dsimp only
        by_cases h4 : ((ch:Int)) > ((b:Int))
        · rw [if_pos h4]
          dsimp only
          have hM : Nat.max d (Nat.max t (Nat.max ci (Nat.max b ch))) = ch :=
            le_antisymm (max5_le (by omega) (by omega) (by omega) (by omega) (by omega)) hub5
          rw [hM]
          by_cases hz : ch = 0
          · rw [if_pos (show ((ch:Int)) ≤ 0 by omega), if_pos hz]
            rfl
          · rw [if_neg (show ¬((ch:Int) ≤ 0) by omega), if_neg hz, if_neg (show ¬(d = ch) by omega), if_neg (show ¬(t = ch) by omega), if_neg (show ¬(ci = ch) by omega), if_neg (show ¬(b = ch) by omega)]
        · rw [if_neg h4]
          dsimp only
          have hM : Nat.max d (Nat.max t (Nat.max ci (Nat.max b ch))) = b :=
            le_antisymm (max5_le (by omega) (by omega) (by omega) (by omega) (by omega)) hub4
          rw [hM]
          by_cases hz : b = 0
          · rw [if_pos (show ((b:Int)) ≤ 0 by omega), if_pos hz]
            rfl
          · rw [if_neg (show ¬((b:Int) ≤ 0) by omega), if_neg hz, if_neg (show ¬(d = b) by omega), if_neg (show ¬(t = b) by omega), if_neg (show ¬(ci = b) by omega), if_pos rfl]
      · rw [if_neg h3]
        dsimp only
        by_cases h4 : ((ch:Int)) > ((ci:Int))
        · rw [if_pos h4]
          dsimp only
          have hM : Nat.max d (Nat.max t (Nat.max ci (Nat.max b ch))) = ch :=
            le_antisymm (max5_le (by omega) (by omega) (by omega) (by omega) (by omega)) hub5
          rw [hM]
          by_cases hz : ch = 0
          · rw [if_pos (show ((ch:Int)) ≤ 0 by omega), if_pos hz]
            rfl
          · rw [if_neg (show ¬((ch:Int) ≤ 0) by omega), if_neg hz, if_neg (show ¬(d = ch) by omega), if_neg (show ¬(t = ch) by omega), if_neg (show ¬(ci = ch) by omega), if_neg (show ¬(b = ch) by omega)]
        · rw [if_neg h4]
          dsimp only
          have hM : Nat.max d (Nat.max t (Nat.max ci (Nat.max b ch))) = ci :=
            le_antisymm (max5_le (by omega) (by omega) (by omega) (by omega) (by omega)) hub3
          rw [hM]
          by_cases hz : ci = 0
          · rw [if_pos (show ((ci:Int)) ≤ 0 by omega), if_pos hz]
            rfl
          · rw [if_neg (show ¬((ci:Int) ≤ 0) by omega), if_neg hz, if_neg (show ¬(d = ci) by omega), if_neg (show ¬(t = ci) by omega), if_pos rfl]
    · rw [if_neg h2]
      dsimp only
      by_cases h3 : ((b:Int)) > ((t:Int))
      · rw [if_pos h3]
        dsimp only
        by_cases h4 : ((ch:Int)) > ((b:Int))
        · rw [if_pos h4]
          dsimp only
          have hM : Nat.max d (Nat.max t (Nat.max ci (Nat.max b ch))) = ch :=
            le_antisymm (max5_le (by omega) (by omega) (by omega) (by omega) (by omega)) hub5
          rw [hM]
          by_cases hz : ch = 0
          · rw [if_pos (show ((ch:Int)) ≤ 0 by omega), if_pos hz]
            rfl
          · rw [if_neg (show ¬((ch:Int) ≤ 0) by omega), if_neg hz, if_neg (show ¬(d = ch) by omega), if_neg (show ¬(t = ch) by omega), if_neg (show ¬(ci = ch) by omega), if_neg (show ¬(b = ch) by omega)]
        · rw [if_neg h4]
          dsimp only
          have hM : Nat.max d (Nat.max t (Nat.max ci (Nat.max b ch))) = b :=
            le_antisymm (max5_le (by omega) (by omega) (by omega) (by omega) (by omega)) hub4
          rw [hM]
          by_cases hz : b = 0
          · rw [if_pos (show ((b:Int)) ≤ 0 by omega), if_pos hz]
            rfl
          · rw [if_neg (show ¬((b:Int) ≤ 0) by omega), if_neg hz, if_neg (show ¬(d = b) by omega), if_neg (show ¬(t = b) by omega), if_neg (show ¬(ci = b) by omega), if_pos rfl]
      · rw [if_neg h3]
        dsimp only
        by_cases h4 : ((ch:Int)) > ((t:Int))
        · rw [if_pos h4]
          dsimp only
          have hM : Nat.max d (Nat.max t (Nat.max ci (Nat.max b ch))) = ch :=
            le_antisymm (max5_le (by omega) (by omega) (by omega) (by omega) (by omega)) hub5
          rw [hM]
          by_cases hz : ch = 0
          · rw [if_pos (show ((ch:Int)) ≤ 0 by omega), if_pos hz]
            rfl
          · rw [if_neg (show ¬((ch:Int) ≤ 0) by omega), if_neg hz, if_neg (show ¬(d = ch) by omega), if_neg (show ¬(t = ch) by omega), if_neg (show ¬(ci = ch) by omega), if_neg (show ¬(b = ch) by omega)]
        · rw [if_neg h4]
          dsimp only
          have hM : Nat.max d (Nat.max t (Nat.max ci (Nat.max b ch))) = t :=
            le_antisymm (max5_le (by omega) (by omega) (by omega) (by omega) (by omega)) hub2
          rw [hM]
          by_cases hz : t = 0
          · rw [if_pos (show ((t:Int)) ≤ 0 by omega), if_pos hz]
            rfl
          · rw [if_neg (show ¬((t:Int) ≤ 0) by omega), if_neg hz, if_neg (show ¬(d = t) by omega), if_pos rfl]
  · rw [if_neg h1]
    dsimp only
    by_cases h2 : ((ci:Int)) > ((d:Int))
    · rw [if_pos h2]
      dsimp only
      by_cases h3 : ((b:Int)) > ((ci:Int))
      · rw [if_pos h3]
        dsimp only
        by_cases h4 : ((ch:Int)) > ((b:Int))
        · rw [if_pos h4]
          dsimp only
          have hM : Nat.max d (Nat.max t (Nat.max ci (Nat.max b ch))) = ch :=
            le_antisymm (max5_le (by omega) (by omega) (by omega) (by omega) (by omega)) hub5
          rw [hM]
          by_cases hz : ch = 0
          · rw [if_pos (show ((ch:Int)) ≤ 0 by omega), if_pos hz]
            rfl
          · rw [if_neg (show ¬((ch:Int) ≤ 0) by omega), if_neg hz, if_neg (show ¬(d = ch) by omega), if_neg (show ¬(t = ch) by omega), if_neg (show ¬(ci = ch) by omega), if_neg (show ¬(b = ch) by omega)]
        · rw [if_neg h4]
          dsimp only
          have hM : Nat.max d (Nat.max t (Nat.max ci (Nat.max b ch))) = b :=
            le_antisymm (max5_le (by omega) (by omega) (by omega) (by omega) (by omega)) hub4
          rw [hM]
          by_cases hz : b = 0
          · rw [if_pos (show ((b:Int)) ≤ 0 by omega), if_pos hz]
            rfl
          · rw [if_neg (show ¬((b:Int) ≤ 0) by omega), if_neg hz, if_neg (show ¬(d = b) by omega), if_neg (show ¬(t = b) by omega), if_neg (show ¬(ci = b) by omega), if_pos rfl]
      · rw [if_neg h3]
        dsimp only
        by_cases h4 : ((ch:Int)) > ((ci:Int))
        · rw [if_pos h4]
          dsimp only
          have hM : Nat.max d (Nat.max t (Nat.max ci (Nat.max b ch))) = ch :=
            le_antisymm (max5_le (by omega) (by omega) (by omega) (by omega) (by omega)) hub5
          rw [hM]
          by_cases hz : ch = 0
          · rw [if_pos (show ((ch:Int)) ≤ 0 by omega), if_pos hz]
            rfl
          · rw [if_neg (show ¬((ch:Int) ≤ 0) by omega), if_neg hz, if_neg (show ¬(d = ch) by omega), if_neg (show ¬(t = ch) by omega), if_neg (show ¬(ci = ch) by omega), if_neg (show ¬(b = ch) by omega)]
        · rw [if_neg h4]
          dsimp only
          have hM : Nat.max d (Nat.max t (Nat.max ci (Nat.max b ch))) = ci :=
            le_antisymm (max5_le (by omega) (by omega) (by omega) (by omega) (by omega)) hub3
          rw [hM]
          by_cases hz : ci = 0
          · rw [if_pos (show ((ci:Int)) ≤ 0 by omega), if_pos hz]
            rfl
          · rw [if_neg (show ¬((ci:Int) ≤ 0) by omega), if_neg hz, if_neg (show ¬(d = ci) by omega), if_neg (show ¬(t = ci) by omega), if_pos rfl]
    · rw [if_neg h2]
      dsimp only
      by_cases h3 : ((b:Int)) > ((d:Int))
      · rw [if_pos h3]
        dsimp only
        by_cases h4 : ((ch:Int)) > ((b:Int))
        · rw [if_pos h4]
          dsimp only
          have hM : Nat.max d (Nat.max t (Nat.max ci (Nat.max b ch))) = ch :=
            le_antisymm (max5_le (by omega) (by omega) (by omega) (by omega) (by omega)) hub5
          rw [hM]
          by_cases hz : ch = 0
          · rw [if_pos (show ((ch:Int)) ≤ 0 by omega), if_pos hz]
            rfl
          · rw [if_neg (show ¬((ch:Int) ≤ 0) by omega), if_neg hz, if_neg (show ¬(d = ch) by omega), if_neg (show ¬(t = ch) by omega), if_neg (show ¬(ci = ch) by omega), if_neg (show ¬(b = ch) by omega)]
        · rw [if_neg h4]
          dsimp only
          have hM : Nat.max d (Nat.max t (Nat.max ci (Nat.max b ch))) = b :=
            le_antisymm (max5_le (by omega) (by omega) (by omega) (by omega) (by omega)) hub4
          rw [hM]
          by_cases hz : b = 0
          · rw [if_pos (show ((b:Int)) ≤ 0 by omega), if_pos hz]
            rfl
          · rw [if_neg (show ¬((b:Int) ≤ 0) by omega), if_neg hz, if_neg (show ¬(d = b) by omega), if_neg (show ¬(t = b) by omega), if_neg (show ¬(ci = b) by omega), if_pos rfl]
      · rw [if_neg h3]
        dsimp only
        by_cases h4 : ((ch:Int)) > ((d:Int))
        · rw [if_pos h4]
          dsimp only
          have hM : Nat.max d (Nat.max t (Nat.max ci (Nat.max b ch))) = ch :=
            le_antisymm (max5_le (by omega) (by omega) (by omega) (by omega) (by omega)) hub5
          rw [hM]
          by_cases hz : ch = 0
          · rw [if_pos (show ((ch:Int)) ≤ 0 by omega), if_pos hz]
            rfl
          · rw [if_neg (show ¬((ch:Int) ≤ 0) by omega), if_neg hz, if_neg (show ¬(d = ch) by omega), if_neg (show ¬(t = ch) by omega), if_neg (show ¬(ci = ch) by omega), if_neg (show ¬(b = ch) by omega)]
        · rw [if_neg h4]
          dsimp only
          have hM : Nat.max d (Nat.max t (Nat.max ci (Nat.max b ch))) = d :=
            le_antisymm (max5_le (by omega) (by omega) (by omega) (by omega) (by omega)) hub1
          rw [hM]
          by_cases hz : d = 0
          · rw [if_pos (show ((d:Int)) ≤ 0 by omega), if_pos hz]
            rfl
          · rw [if_neg (show ¬((d:Int) ≤ 0) by omega), if_neg hz, if_pos rfl]

/-- Concrete changes for the C1 scenario: one docs file and two test files. -/
def c1Changes : List Change :=
  [{ Path := "readme.md", OldPath := "", Status := "M", Source := ModeUnstaged },
   { Path := "a_test.go", OldPath := "", Status := "M", Source := ModeUnstaged },
   { Path := "b_test.go", OldPath := "", Status := "M", Source := ModeUnstaged }]

/-- Claim C1 counterexample: with one docs record and two test records and
no code records, detectType returns test (the maximum count), while the
claimed first-category-with-positive-count rule would return docs. -/
theorem c1_cex :
    optsNone.«Type» = "" ∧ countCat c1Changes catCode = 0 ∧
    (detectType c1Changes "" optsNone).1 = "test" ∧
    claimedDominant (fun cat => countCat c1Changes cat) = "docs" ∧
    ¬(("test" : String) = "docs") :=
  ⟨rfl, rfl, rfl, rfl, by decide⟩

/-- Claim C1 (corrected): when zero records categorize as code and no type
override is given, detectType picks the non-code category with the maximum
count, ties broken by the priority order docs, test, ci, build, chore, and
defaults to chore when all counts are zero. -/
theorem c1_amended (changes : List Change) (diff : String) (opts : Options)
    (h1 : opts.«Type» = "") (h2 : countCat changes catCode = 0) :
    (detectType changes diff opts).1
      = amendedDominant (fun cat => countCat changes cat) := by
  have hno : ¬(opts.«Type» ≠ "") := by simp [h1]
  simp only [detectType, if_neg hno, if_pos h2]
  exact dominantNonCode_eq_amended _

/-- Claim C1 witness: the corrected rule applied to the concrete docs plus
tests scenario. -/
theorem c1_witness :
    (detectType c1Changes "" optsNone).1
      = amendedDominant (fun cat => countCat c1Changes cat) :=
  c1_amended c1Changes "" optsNone rfl rfl

/-! ## Claim C3: refactor signal -/

/-- Concrete change whose path contains restructure but neither refactor nor
cleanup. -/
def c3CexChanges : List Change :=
  [{ Path := "restructure.go", OldPath := "", Status := "M", Source := ModeUnstaged }]

/-- Concrete change whose path contains cleanup. -/
def c3WitChanges : List Change :=
  [{ Path := "cleanup.go", OldPath := "", Status := "M", Source := ModeUnstaged }]

/-- Claim C3 counterexample: a code change whose path contains restructure
(but not refactor or cleanup), with an empty diff, satisfies the premises of
the claim, yet detectType returns fix: the path scan only looks for refactor
and cleanup, restructure is only a diff keyword. -/
theorem c3_cex :
    optsNone.«Type» = "" ∧ ¬(countCat c3CexChanges catCode = 0) ∧
    hasPerfHint c3CexChanges = false ∧
    diffHasKeyword "" ["perf", "optimiz", "speed"] = false ∧
    goContains (goToLower "restructure.go") "restructure" = true ∧
    (detectType c3CexChanges "" optsNone).1 = "fix" ∧
    ¬(("fix" : String) = "refactor") :=
  ⟨rfl, by decide, rfl, rfl, rfl, rfl, by decide⟩

/-- Claim C3 (corrected): with code records present, no override and no
performance signal, detectType returns refactor when a path contains
refactor or cleanup, or when a qualifying diff content line contains
refactor, cleanup or restructure. -/
theorem c3_amended (changes : List Change) (diff : String) (opts : Options)
    (h1 : opts.«Type» = "") (h2 : countCat changes catCode ≠ 0)
    (h3 : hasPerfHint changes = false)
    (h4 : diffHasKeyword diff ["perf", "optimiz", "speed"] = false)
    (h5 : hasRefactorHint changes = true ∨
      diffHasKeyword diff ["refactor", "cleanup", "restructure"] = true) :
    (detectType changes diff opts).1 = "refactor" := by
  have hno : ¬(opts.«Type» ≠ "") := by simp [h1]
  have hperf : (hasPerfHint changes
      || diffHasKeyword diff ["perf", "optimiz", "speed"]) = false := by
    rw [h3, h4]
    rfl
  have href : (hasRefactorHint changes
      || diffHasKeyword diff ["refactor", "cleanup", "restructure"]) = true := by
    rcases h5 with h | h
    · rw [h]
      rfl
    · rw [h]
      simp
  simp only [detectType, if_neg hno, if_neg h2, hperf, href]
  rfl

/-- Claim C3 witness: the corrected refactor rule applied to a concrete
cleanup path. -/
theorem c3_witness : (detectType c3WitChanges "" optsNone).1 = "refactor" :=
  c3_amended c3WitChanges "" optsNone rfl (by decide) rfl rfl (Or.inl rfl)

/-! ## Claim C6: merge conflict resolution -/

theorem some_or_eq (a : Change) (o : Option Change) : (some a).or o = some a := rfl

theorem find?_cons_pos (pred : Change → Bool) (a : Change) (l : List Change)
    (h : pred a = true) : List.find? pred (a :: l) = some a :=
  List.find?_cons_of_pos _ h

theorem find?_cons_neg (pred : Change → Bool) (a : Change) (l : List Change)
    (h : ¬pred a = true) : List.find? pred (a :: l) = List.find? pred l :=
  List.find?_cons_of_neg _ h

theorem find?_singleton (pred : Change → Bool) (ch : Change) :
    List.find? pred [ch] = if pred ch = true then some ch else none := by
  by_cases hp : pred ch = true
  · rw [if_pos hp]
    exact List.find?_cons_of_pos _ hp
  · rw [if_neg hp]
    rw [List.find?_cons_of_neg _ hp]
    rfl

theorem find?_map_upsert (ch : Change) :
    ∀ (m : List Change), m.any (fun e => e.Path == ch.Path) = true →
      ((m.map fun e => if e.Path == ch.Path then ch else e).find?
        (fun e => e.Path == ch.Path)) = some ch
  | [], h => by simp at h
  | e :: m, h => by
    by_cases he : (e.Path == ch.Path) = true
    · simp only [List.map_cons, if_pos he]
      exact List.find?_cons_of_pos _ (beq_self_eq_true ch.Path)
    · simp only [List.map_cons, if_neg he]
      rw [find?_cons_neg (fun e => e.Path == ch.Path) e _ he]
      rw [List.any_cons] at h
      have hm : m.any (fun e => e.Path == ch.Path) = true := by
        rcases Bool.or_eq_true_iff.mp h with h' | h'
        · exact absurd h' he
        · exact h'
      exact find?_map_upsert ch m hm

theorem find?_upsert_self (m : List Change) (ch : Change) :
    (upsert m ch).find? (fun e => e.Path == ch.Path) = some ch := by
  unfold upsert
  by_cases h : m.any (fun e => e.Path == ch.Path) = true
  · rw [if_pos h]
    exact find?_map_upsert ch m h
  · rw [if_neg h]
    have hfalse : m.any (fun e => e.Path == ch.Path) = false :=
      Bool.eq_false_iff.mpr h
    have hnone : m.find? (fun e => e.Path == ch.Path) = none :=
      List.find?_eq_none.mpr (fun x hx hpx =>
        (List.any_eq_false.mp hfalse x hx) hpx)
    rw [List.find?_append, hnone, Option.none_or]
    exact List.find?_cons_of_pos _ (beq_self_eq_true ch.Path)

theorem find?_map_other (ch : Change) (p : String) (hne : ¬(ch.Path = p)) :
    ∀ (m : List Change),
      ((m.map fun e => if e.Path == ch.Path then ch else e).find?
        (fun e => e.Path == p)) = m.find? (fun e => e.Path == p)
  | [] => rfl
  | e :: m => by
    have ih := find?_map_other ch p hne m
    by_cases he : (e.Path == ch.Path) = true
    · have hche : e.Path = ch.Path := by simpa using he
      have h1 : ¬((ch.Path == p) = true) := by simp [hne]
      have h2 : ¬((e.Path == p) = true) := by
        simp only [beq_iff_eq, hche]
        exact hne
      simp only [List.map_cons, if_pos he]
      rw [find?_cons_neg (fun e => e.Path == p) ch _ h1,
        find?_cons_neg (fun e => e.Path == p) e _ h2]
      exact ih
    · simp only [List.map_cons, if_neg he]
      by_cases hp : (e.Path == p) = true
      · rw [find?_cons_pos (fun e => e.Path == p) e _ hp,
          find?_cons_pos (fun e => e.Path == p) e _ hp]
      · rw [find?_cons_neg (fun e => e.Path == p) e _ hp,
          find?_cons_neg (fun e => e.Path == p) e _ hp]
        exact ih

theorem find?_upsert_other (m : List Change) (ch : Change) (p : String)
    (hne : ¬(ch.Path = p)) :
    (upsert m ch).find? (fun e => e.Path == p) = m.find? (fun e => e.Path == p) := by
  unfold upsert
  by_cases h : m.any (fun e => e.Path == ch.Path) = true
  · rw [if_pos h]
    exact find?_map_other ch p hne m
  · rw [if_neg h]
    rw [List.find?_append]
    have hch : ¬((ch.Path == p) = true) := by simp [hne]
    cases hm : m.find? (fun e => e.Path == p) with
    | none =>
      rw [Option.none_or]
      simp only [find?_singleton, if_neg hch]
    | some s => rw [some_or_eq]

theorem foldl_upsert_no_path (p : String) :
    ∀ (l : List Change) (m : List Change), (∀ e ∈ l, ¬(e.Path = p)) →
      ((l.foldl upsert m).find? (fun e => e.Path == p))
        = m.find? (fun e => e.Path == p)
  | [], _, _ => rfl
  | ch :: l, m, h => by
    have hch : ¬(ch.Path = p) := h ch (List.mem_cons_self ch l)
    have ih := foldl_upsert_no_path p l (upsert m ch)
      (fun x hx => h x (List.mem_cons_of_mem _ hx))
    rw [List.foldl_cons, ih, find?_upsert_other m ch p hch]

theorem foldl_upsert_last (p : String) :
    ∀ (l : List Change) (m : List Change) (s : Change),
      l.reverse.find? (fun e => e.Path == p) = some s →
      ((l.foldl upsert m).find? (fun e => e.Path == p)) = some s
  | [], _, s, h => by simp at h
  | ch :: l, m, s, h => by
    rw [List.reverse_cons, List.find?_append] at h
    rw [List.foldl_cons]
    cases hr : l.reverse.find? (fun e => e.Path == p) with
    | some s₁ =>
      rw [hr, some_or_eq, Option.some_inj] at h
      subst h
      exact foldl_upsert_last p l (upsert m ch) s₁ hr
    | none =>
      rw [hr, Option.none_or] at h
      have hnol : ∀ e ∈ l, ¬(e.Path = p) := by
        intro e he hep
        have := List.find?_eq_none.mp hr e (List.mem_reverse.mpr he)
        simp [hep] at this
      simp only [find?_singleton] at h
      by_cases hc : (ch.Path == p) = true
      · rw [if_pos hc, Option.some_inj] at h
        subst h
        rw [foldl_upsert_no_path p l (upsert m ch) hnol]
        have hcp : ch.Path = p := by simpa using hc
        have hself := find?_upsert_self m ch
        rw [hcp] at hself
        exact hself
      · rw [if_neg hc] at h
        exact absurd h (by simp)

theorem foldl_mergeStep (p : String) :
    ∀ (us : List Change) (m : List Change) (s : Change),
      m.find? (fun e => e.Path == p) = some s →
      ((us.foldl mergeStep m).find? (fun e => e.Path == p))
        = some (if us.any (fun e => e.Path == p) = true then
            { s with Source := ModeAll } else s)
  | [], m, s, h => by simpa using h
  | u :: us, m, s, h => by
    rw [List.foldl_cons, List.any_cons]
    by_cases hup : u.Path = p
    · have hs : s.Path = p := by simpa using List.find?_some h
      have hfind : m.find? (fun e => e.Path == u.Path) = some s := by
        rw [show u.Path = p from hup]
        exact h
      have hkey : ({ s with Source := ModeAll } : Change).Path = p := hs
      have hfind2 : (upsert m { s with Source := ModeAll }).find?
          (fun e => e.Path == p) = some { s with Source := ModeAll } := by
        have hself := find?_upsert_self m { s with Source := ModeAll }
        simpa [hs] using hself
      have ih := foldl_mergeStep p us (upsert m { s with Source := ModeAll })
        { s with Source := ModeAll } hfind2
      simp only [mergeStep, hfind]
      rw [ih]
      have hb : (u.Path == p) = true := by simp [hup]
      rw [hb]
      have hred : ({ { s with Source := ModeAll } with Source := ModeAll } : Change)
          = { s with Source := ModeAll } := rfl
      rw [hred, ite_self]
      have hcond : (true || us.any (fun e => e.Path == p)) = true := by simp
      rw [hcond, if_pos rfl]
    · have hb : (u.Path == p) = false := by simp [hup]
      cases hf : m.find? (fun e => e.Path == u.Path) with
      | some ex =>
        have hex : ex.Path = u.Path := by simpa using List.find?_some hf
        have hpres : (upsert m { ex with Source := ModeAll }).find?
            (fun e => e.Path == p) = some s := by
          rw [find?_upsert_other m _ p (by
            show ¬(({ ex with Source := ModeAll } : Change).Path = p)
            simpa [hex] using hup)]
          exact h
        simp only [mergeStep, hf]
        rw [foldl_mergeStep p us _ s hpres, hb]
        rw [Bool.false_or]
      | none =>
        have hpres : (upsert m { u with Source := ModeAll }).find?
            (fun e => e.Path == p) = some s := by
          rw [find?_upsert_other m _ p (by
            show ¬(({ u with Source := ModeAll } : Change).Path = p)
            simpa using hup)]
          exact h
        simp only [mergeStep, hf]
        rw [foldl_mergeStep p us _ s hpres, hb]
        rw [Bool.false_or]

/-- Claim C6 (confirmed): in mode all the merge seeds a path map with the
staged records; for each unstaged record whose path is already present the
staged record (the last staged record with that path) keeps its status and
fields, only its origin is rewritten to ModeAll, the merged origin. -/
theorem c6_merge (staged unstaged : List Change) (p : String) (s : Change)
    (hs : staged.reverse.find? (fun e => e.Path == p) = some s)
    (hu : unstaged.any (fun e => e.Path == p) = true) :
    (mergeChanges staged unstaged).find? (fun e => e.Path == p)
      = some { s with Source := ModeAll } := by
  unfold mergeChanges
  have h0 := foldl_upsert_last p staged [] s hs
  rw [foldl_mergeStep p unstaged (staged.foldl upsert []) s h0, if_pos hu]

/-- Claim C6 witness: a path staged with status M and unstaged with status D
merges to status M with origin all. -/
theorem c6_witness :
    (mergeChanges [{ Path := "p", OldPath := "", Status := "M", Source := ModeStaged }]
        [{ Path := "p", OldPath := "", Status := "D", Source := ModeUnstaged }]).find?
      (fun e => e.Path == "p")
      = some { Path := "p", OldPath := "", Status := "M", Source := ModeAll } :=
  c6_merge _ _ "p" { Path := "p", OldPath := "", Status := "M", Source := ModeStaged }
    (by decide) (by decide)

/-! ## Claim C8: partial results on truncated rename records -/

set_option maxHeartbeats 4000000 in
theorem parseNS_empty (l : List String) (src : Mode) :
    parseNS ("" :: l) src = parseNS l src := by
  rw [parseNS.eq_def]
  simp

theorem parseNS_tabPlain (entry st p : String) (l : List String) (src : Mode)
    (hne : ¬entry = "") (htab : containsTab entry = true)
    (hsplit : goSplitN entry '\t' 2 = [st, p])
    (hsc : ¬statusChar st = "R") (hsc2 : ¬statusChar st = "C") :
    parseNS (entry :: l) src
      = { Path := p, OldPath := "", Status := statusChar st, Source := src }
          :: parseNS l src := by
  have hor : ¬(statusChar st = "R" ∨ statusChar st = "C") := by
    rintro (h | h)
    · exact hsc h
    · exact hsc2 h
  have htt : ((true : Bool) = true) := rfl
  rw [parseNS.eq_def]
  simp only [if_neg hne, htab, if_pos htt, hsplit, if_neg hor, if_true, if_false]

theorem parseNS_tabRen (entry st p nf : String) (l : List String) (src : Mode)
    (hne : ¬entry = "") (htab : containsTab entry = true)
    (hsplit : goSplitN entry '\t' 2 = [st, p])
    (hsc : statusChar st = "R" ∨ statusChar st = "C") :
    parseNS (entry :: nf :: l) src
      = { Path := nf, OldPath := p, Status := statusChar st, Source := src }
          :: parseNS l src := by
  have htt : ((true : Bool) = true) := rfl
  rw [parseNS.eq_def]
  simp only [if_neg hne, htab, if_pos htt, hsplit, if_pos hsc, if_true, if_false]

theorem parseNS_plain (entry pf : String) (l : List String) (src : Mode)
    (hne : ¬entry = "") (htab : containsTab entry = false)
    (hsc : ¬statusChar entry = "R") (hsc2 : ¬statusChar entry = "C") :
    parseNS (entry :: pf :: l) src
      = (if pf ≠ "" then
          [{ Path := pf, OldPath := "", Status := statusChar entry, Source := src }]
         else []) ++ parseNS l src := by
  have hor : ¬(statusChar entry = "R" ∨ statusChar entry = "C") := by
    rintro (h | h)
    · exact hsc h
    · exact hsc2 h
  have hft : ¬((false : Bool) = true) := by decide
  rw [parseNS.eq_def]
  simp only [if_neg hne, htab, if_neg hft, if_neg hor, if_true, if_false]

theorem parseNS_ren (entry oldf newf : String) (l : List String) (src : Mode)
    (hne : ¬entry = "") (htab : containsTab entry = false)
    (hsc : statusChar entry = "R" ∨ statusChar entry = "C") :
    parseNS (entry :: oldf :: newf :: l) src
      = (if oldf ≠ "" ∧ newf ≠ "" then
          [{ Path := newf, OldPath := oldf, Status := statusChar entry, Source := src }]
         else []) ++ parseNS l src := by
  have hft : ¬((false : Bool) = true) := by decide
  rw [parseNS.eq_def]
  simp only [if_neg hne, htab, if_neg hft, if_pos hsc, if_true, if_false]

theorem parseNS_trunc_tab (entry st p : String) (src : Mode)
    (hne : ¬entry = "") (htab : containsTab entry = true)
    (hsplit : goSplitN entry '\t' 2 = [st, p])
    (hsc : statusChar st = "R" ∨ statusChar st = "C") :
    parseNS [entry] src = [] := by
  have htt : ((true : Bool) = true) := rfl
  rw [parseNS.eq_def]
  simp only [if_neg hne, htab, if_pos htt, hsplit, if_pos hsc, if_true, if_false]

theorem parseNS_trunc_plain1 (st : String) (src : Mode)
    (hne : ¬st = "") (htab : containsTab st = false)
    (hsc : statusChar st = "R" ∨ statusChar st = "C") :
    parseNS [st] src = [] := by
  have hft : ¬((false : Bool) = true) := by decide
  rw [parseNS.eq_def]
  simp only [if_neg hne, htab, if_neg hft, if_pos hsc, if_true, if_false]

theorem parseNS_trunc_plain2 (st oldf : String) (src : Mode)
    (hne : ¬st = "") (htab : containsTab st = false)
    (hsc : statusChar st = "R" ∨ statusChar st = "C") :
    parseNS [st, oldf] src = [] := by
  have hft : ¬((false : Bool) = true) := by decide
  rw [parseNS.eq_def]
  simp only [if_neg hne, htab, if_neg hft, if_pos hsc, if_true, if_false]

/-- Field sequences made of complete records, as parseNameStatus consumes
them: empty fields, tab joined non-rename entries, tab joined rename entries
with their extra new path field, plain non-rename entries with their path
field, and plain rename entries with their two path fields. -/
inductive WFFields : List String → Prop where
  | nil : WFFields []
  | emptyF : ∀ (rest : List String), WFFields rest → WFFields ("" :: rest)
  | tabPlain : ∀ (entry st p : String) (rest : List String),
      ¬entry = "" → containsTab entry = true → goSplitN entry '\t' 2 = [st, p] →
      ¬statusChar st = "R" → ¬statusChar st = "C" →
      WFFields rest → WFFields (entry :: rest)
  | tabRen : ∀ (entry st p nf : String) (rest : List String),
      ¬entry = "" → containsTab entry = true → goSplitN entry '\t' 2 = [st, p] →
      (statusChar st = "R" ∨ statusChar st = "C") →
      WFFields rest → WFFields (entry :: nf :: rest)
  | plain : ∀ (entry pf : String) (rest : List String),
      ¬entry = "" → containsTab entry = false →
      ¬statusChar entry = "R" → ¬statusChar entry = "C" →
      WFFields rest → WFFields (entry :: pf :: rest)
  | ren : ∀ (entry oldf newf : String) (rest : List String),
      ¬entry = "" → containsTab entry = false →
      (statusChar entry = "R" ∨ statusChar entry = "C") →
      WFFields rest → WFFields (entry :: oldf :: newf :: rest)

/-- Truncated rename or copy records: the status arrives but the fields run
out before the record is complete, in either physical shape. -/
inductive TruncatedRename : List String → Prop where
  | tab1 : ∀ (entry st p : String),
      ¬entry = "" → containsTab entry = true → goSplitN entry '\t' 2 = [st, p] →
      (statusChar st = "R" ∨ statusChar st = "C") → TruncatedRename [entry]
  | plain1 : ∀ (st : String),
      ¬st = "" → containsTab st = false →
      (statusChar st = "R" ∨ statusChar st = "C") → TruncatedRename [st]
  | plain2 : ∀ (st oldf : String),
      ¬st = "" → containsTab st = false →
      (statusChar st = "R" ∨ statusChar st = "C") → TruncatedRename [st, oldf]

theorem parseNS_wf_append (pre : List String) (hwf : WFFields pre) :
    ∀ (tail : List String) (src : Mode), parseNS tail src = [] →
      parseNS (pre ++ tail) src = parseNS pre src := by
  induction hwf with
  | nil =>
    intro tail src htail
    simpa using htail
  | emptyF rest hrest ih =>
    intro tail src htail
    rw [List.cons_append, parseNS_empty, parseNS_empty, ih tail src htail]
  | tabPlain entry st p rest hne htab hsplit hsc hsc2 hrest ih =>
    intro tail src htail
    rw [List.cons_append, parseNS_tabPlain entry st p _ src hne htab hsplit hsc hsc2,
      parseNS_tabPlain entry st p _ src hne htab hsplit hsc hsc2, ih tail src htail]
  | tabRen entry st p nf rest hne htab hsplit hsc hrest ih =>
    intro tail src htail
    rw [List.cons_append, List.cons_append,
      parseNS_tabRen entry st p nf _ src hne htab hsplit hsc,
      parseNS_tabRen entry st p nf _ src hne htab hsplit hsc, ih tail src htail]
  | plain entry pf rest hne htab hsc hsc2 hrest ih =>
    intro tail src htail
    rw [List.cons_append, List.cons_append,
      parseNS_plain entry pf _ src hne htab hsc hsc2,
      parseNS_plain entry pf _ src hne htab hsc hsc2, ih tail src htail]
  | ren entry oldf newf rest hne htab hsc hrest ih =>
    intro tail src htail
    rw [List.cons_append, List.cons_append, List.cons_append,
      parseNS_ren entry oldf newf _ src hne htab hsc,
      parseNS_ren entry oldf newf _ src hne htab hsc, ih tail src htail]

/-- Claim C8 (confirmed): for every well formed field sequence followed by a
truncated rename or copy record, the parser stops early and returns exactly
the records of the well formed part; the parsing function is total, so no
input raises an error or aborts the batch. -/
theorem c8_truncated_partial (pre tail : List String) (src : Mode)
    (hwf : WFFields pre) (htr : TruncatedRename tail) :
    parseNS (pre ++ tail) src = parseNS pre src := by
  refine parseNS_wf_append pre hwf tail src ?_
  cases htr with
  | tab1 entry st p hne htab hsplit hsc =>
    exact parseNS_trunc_tab entry st p src hne htab hsplit hsc
  | plain1 st hne htab hsc =>
    exact parseNS_trunc_plain1 st src hne htab hsc
  | plain2 st oldf hne htab hsc =>
    exact parseNS_trunc_plain2 st oldf src hne htab hsc

/-- Claim C8 witness: one complete modify record followed by a truncated
shape two rename record parses to exactly the complete record. -/
theorem c8_witness :
    parseNS (["M\ta.go"] ++ ["R100", "old.go"]) ModeStaged
      = parseNS ["M\ta.go"] ModeStaged :=
  c8_truncated_partial ["M\ta.go"] ["R100", "old.go"] ModeStaged
    (WFFields.tabPlain "M\ta.go" "M" "a.go" [] (by decide) (by decide) (by decide)
      (by decide) (by decide) WFFields.nil)
    (TruncatedRename.plain2 "R100" "old.go" (by decide) (by decide) (Or.inl (by decide)))

/-! ## Claim C5: rename shape invariance -/

theorem toList_tab : ("\t" : String).toList = ['\t'] := rfl

theorem toList_nul : ("\x00" : String).toList = [nulChar] := rfl

theorem nul_lit_eq : '\x00' = nulChar := rfl

theorem toList_mk (l : List Char) : (String.mk l).toList = l := rfl

theorem parseNS_nil (src : Mode) : parseNS [] src = [] := by
  rw [parseNS.eq_def]

theorem no_tab_chars (st : String) (h : containsTab st = false) :
    ∀ c ∈ st.toList, ¬(c = '\t') := by
  intro c hc hct
  have := List.any_eq_false.mp h c hc
  simp [hct] at this

theorem goSplitN_tab_pair (st old : String) (hTab : containsTab st = false) :
    goSplitN (String.mk (st.toList ++ '\t' :: old.toList)) '\t' 2 = [st, old] := by
  have hsf : splitFirst '\t' (st.toList ++ '\t' :: old.toList)
      = some (st.toList, old.toList) :=
    splitFirst_append '\t' st.toList old.toList (no_tab_chars st hTab)
  simp only [goSplitN, toList_mk, splitNAux, hsf]
  simp [mk_toList]

theorem nonempty_of_statusTake (st : String)
    (hR : strTake st 1 = "R" ∨ strTake st 1 = "C") : ¬st = "" := by
  rintro rfl
  rcases hR with h | h <;> simp [strTake] at h

/-- Claim C5 (confirmed): a rename or copy record parses to the identical
record whether it arrives as one tab joined field followed by the new path
field, or as three separate NUL delimited fields; the similarity percentage
after the status letter is ignored, only the first character is kept. -/
theorem c5_shape_invariance (st old new : String) (src : Mode)
    (hR : strTake st 1 = "R" ∨ strTake st 1 = "C")
    (hTab : containsTab st = false)
    (hNulSt : ∀ c ∈ st.toList, ¬(c = nulChar))
    (hNulOld : ∀ c ∈ old.toList, ¬(c = nulChar))
    (hNulNew : ∀ c ∈ new.toList, ¬(c = nulChar))
    (hOld : ¬old = "") (hNew : ¬new = "") :
    parseNameStatus (st ++ "\t" ++ old ++ "\x00" ++ new ++ "\x00") src
        = [{ Path := new, OldPath := old, Status := strTake st 1, Source := src }] ∧
    parseNameStatus (st ++ "\x00" ++ old ++ "\x00" ++ new ++ "\x00") src
        = [{ Path := new, OldPath := old, Status := strTake st 1, Source := src }] := by
  have hst : ¬st = "" := nonempty_of_statusTake st hR
  have hstc : statusChar st = strTake st 1 := if_neg hst
  have hscR : statusChar st = "R" ∨ statusChar st = "C" := by rw [hstc]; exact hR
  have htabnul : ¬(('\t' : Char) = nulChar) := by decide
  constructor
  · -- shape 1: one tab joined field plus the new path field
    have hraw : (st ++ "\t" ++ old ++ "\x00" ++ new ++ "\x00").toList
        = (st.toList ++ '\t' :: old.toList) ++ nulChar :: (new.toList ++ nulChar :: []) := by
      simp [toList_append, toList_tab, toList_nul, nul_lit_eq]
      rfl
    have hA : ∀ c ∈ st.toList ++ '\t' :: old.toList, ¬(c = nulChar) := by
      intro c hc
      rcases List.mem_append.mp hc with h | h
      · exact hNulSt c h
      · rcases List.mem_cons.mp h with h | h
        · rw [h]; exact htabnul
        · exact hNulOld c h
    have hsplit1 : splitOnChar nulChar ((st.toList ++ '\t' :: old.toList)
        ++ nulChar :: (new.toList ++ nulChar :: []))
        = (st.toList ++ '\t' :: old.toList) :: (new.toList :: [[]]) := by
      rw [splitOnChar_append nulChar _ _ hA,
        splitOnChar_append nulChar new.toList [] hNulNew]
      rfl
    have hne : ¬(st ++ "\t" ++ old ++ "\x00" ++ new ++ "\x00") = "" := by
      rw [eq_empty_iff_toList, hraw]
      simp
    have hfne : ¬(String.mk (st.toList ++ '\t' :: old.toList)) = "" := by
      rw [eq_empty_iff_toList, toList_mk]
      simp
    have hftab : containsTab (String.mk (st.toList ++ '\t' :: old.toList)) = true := by
      simp [containsTab, toList_mk, List.any_append]
    rw [parseNameStatus, if_neg hne]
    rw [goSplitChar, hraw, hsplit1]
    simp only [List.map_cons, List.map_nil, mk_toList]
    rw [show (String.mk ([] : List Char)) = "" from rfl]
    rw [parseNS_tabRen (String.mk (st.toList ++ '\t' :: old.toList)) st old new [""] src
      hfne hftab (goSplitN_tab_pair st old hTab) hscR]
    rw [parseNS_empty, parseNS_nil, hstc]
  · -- shape 2: three separate fields
    have hraw : (st ++ "\x00" ++ old ++ "\x00" ++ new ++ "\x00").toList
        = st.toList ++ nulChar :: (old.toList ++ nulChar :: (new.toList ++ nulChar :: [])) := by
      simp [toList_append, toList_nul, nul_lit_eq]
      rfl
    have hsplit2 : splitOnChar nulChar (st.toList
        ++ nulChar :: (old.toList ++ nulChar :: (new.toList ++ nulChar :: [])))
        = st.toList :: (old.toList :: (new.toList :: [[]])) := by
      rw [splitOnChar_append nulChar _ _ hNulSt,
        splitOnChar_append nulChar _ _ hNulOld,
        splitOnChar_append nulChar new.toList [] hNulNew]
      rfl
    have hne : ¬(st ++ "\x00" ++ old ++ "\x00" ++ new ++ "\x00") = "" := by
      rw [eq_empty_iff_toList, hraw]
      simp
    rw [parseNameStatus, if_neg hne]
    rw [goSplitChar, hraw, hsplit2]
    simp only [List.map_cons, List.map_nil, mk_toList]
    rw [show (String.mk ([] : List Char)) = "" from rfl]
    rw [parseNS_ren st old new [""] src hst hTab hscR]
    rw [if_pos ⟨hOld, hNew⟩, parseNS_empty, parseNS_nil, hstc]
    rfl

/-- Claim C5 witness: the two physical shapes of a concrete rename record
with similarity percentage parse to the identical record. -/
theorem c5_witness :
    parseNameStatus ("R100" ++ "\t" ++ "a.go" ++ "\x00" ++ "b.go" ++ "\x00") ModeStaged
        = [{ Path := "b.go", OldPath := "a.go", Status := strTake "R100" 1,
             Source := ModeStaged }] ∧
    parseNameStatus ("R100" ++ "\x00" ++ "a.go" ++ "\x00" ++ "b.go" ++ "\x00") ModeStaged
        = [{ Path := "b.go", OldPath := "a.go", Status := strTake "R100" 1,
             Source := ModeStaged }] :=
  c5_shape_invariance "R100" "a.go" "b.go" ModeStaged (Or.inl (by decide)) (by decide)
    (by decide) (by decide) (by decide) (by decide) (by decide)

/-! ## Claim C4: the round-trip of the message prefix -/

/-- Character list encoding of the optional scope segment of the prefix. -/
def scopeEnc (scope : String) : List Char :=
  if scope = "" then [] else '(' :: (scope.toList ++ [')'])

/-- Character list encoding of the optional breaking bang of the prefix. -/
def bangEnc (b : Bool) : List Char :=
  if b then ['!'] else []

theorem toList_colon_space : (": " : String).toList = [':', ' '] := rfl

theorem toList_parenL : ("(" : String).toList = ['('] := rfl

theorem toList_parenR : (")" : String).toList = [')'] := rfl

theorem toList_bang : ("!" : String).toList = ['!'] := rfl

theorem toList_space : (" " : String).toList = [' '] := rfl

theorem str_append_assoc (a b c : String) : (a ++ b) ++ c = a ++ (b ++ c) := by
  cases a; cases b; cases c
  rw [String.ext_iff]
  show (_ ++ _) ++ _ = _
  simp

theorem scopeEnc_toList (scope : String) :
    ((if scope ≠ "" then "(" ++ scope ++ ")" else "") : String).toList = scopeEnc scope := by
  by_cases h : scope = ""
  · simp [h, scopeEnc]
  · simp only [h, ne_eq, not_false_iff, if_pos, scopeEnc, if_neg h]
    simp [toList_append, toList_parenL, toList_parenR]

theorem bangEnc_toList (b : Bool) :
    ((if b then "!" else "") : String).toList = bangEnc b := by
  cases b
  · simp [bangEnc]
  · simp [bangEnc, toList_bang]

theorem stripEmoji_code (w cs : List Char) (hw : ∀ c ∈ w, ¬(c = ':')) :
    stripEmojiCode (':' :: (w ++ ':' :: ' ' :: cs)) = cs := by
  have hpred : ∀ c ∈ w, (fun x => !(x == ':')) c = true := by
    intro c hc
    simp [hw c hc]
  have htw : (w ++ ':' :: ' ' :: cs).takeWhile (fun x => !(x == ':')) = w := by
    rw [takeWhile_append_all w _ hpred]
    simp [List.takeWhile_cons]
  have hcolon : (':' : Char) = ':' := rfl
  simp only [stripEmojiCode, if_pos hcolon, htw, List.drop_left]
  simp

theorem stripEmoji_noop (c : Char) (cs : List Char) (hc : ¬(c = ':')) :
    stripEmojiCode (c :: cs) = c :: cs := by
  simp only [stripEmojiCode, if_neg hc]

theorem parsePrefixCore_built (tyl : List Char) (scope : String) (b : Bool)
    (rest : List Char) (h1 : tyl ≠ []) (h2 : ∀ c ∈ tyl, isTyDelim c = false)
    (h3 : ∀ c ∈ scope.toList, ¬(c = ')')) :
    parsePrefixCore (tyl ++ (scopeEnc scope ++ (bangEnc b ++ ':' :: ' ' :: rest)))
      = some (String.mk tyl, scope, b) := by
  have hpred : ∀ c ∈ tyl, (fun c => !(isTyDelim c)) c = true := by
    intro c hc
    simp [h2 c hc]
  have htail : (scopeEnc scope ++ (bangEnc b ++ ':' :: ' ' :: rest)).takeWhile
      (fun c => !(isTyDelim c)) = [] := by
    by_cases hs : scope = ""
    · cases b
      · simp [scopeEnc, hs, bangEnc, List.takeWhile_cons, isTyDelim]
      · simp [scopeEnc, hs, bangEnc, List.takeWhile_cons, isTyDelim]
    · simp [scopeEnc, hs, List.takeWhile_cons, isTyDelim]
  have hty : (tyl ++ (scopeEnc scope ++ (bangEnc b ++ ':' :: ' ' :: rest))).takeWhile
      (fun c => !(isTyDelim c)) = tyl := by
    rw [takeWhile_append_all tyl _ hpred, htail, List.append_nil]
  have hempty : tyl.isEmpty = false := by
    cases tyl
    · exact absurd rfl h1
    · rfl
  have hdrop : (tyl ++ (scopeEnc scope ++ (bangEnc b ++ ':' :: ' ' :: rest))).drop
      tyl.length = scopeEnc scope ++ (bangEnc b ++ ':' :: ' ' :: rest) :=
    List.drop_left _ _
  have hbang : parseBangColon (bangEnc b ++ ':' :: ' ' :: rest) = some (b, rest) := by
    cases b
    · simp only [bangEnc, if_neg (by decide : ¬False), List.nil_append]
      simp [parseBangColon]
    · simp only [bangEnc]
      simp [parseBangColon]
  have hscope : parseScopePart (scopeEnc scope ++ (bangEnc b ++ ':' :: ' ' :: rest))
      = some (scope, bangEnc b ++ ':' :: ' ' :: rest) := by
    by_cases hs : scope = ""
    · subst hs
      simp only [scopeEnc, if_pos rfl, List.nil_append]
      cases b
      · simp [parseBangColon, bangEnc, parseScopePart]
      · simp [parseBangColon, bangEnc, parseScopePart]
    · have hpred3 : ∀ c ∈ scope.toList, (fun x => !(x == ')')) c = true := by
        intro c hc
        simp [h3 c hc]
      have htw : (scope.toList ++ ')' :: (bangEnc b ++ ':' :: ' ' :: rest)).takeWhile
          (fun x => !(x == ')')) = scope.toList := by
        rw [takeWhile_append_all scope.toList _ hpred3]
        simp [List.takeWhile_cons]
      have hdrop2 : (scope.toList ++ ')' :: (bangEnc b ++ ':' :: ' ' :: rest)).drop
          scope.toList.length = ')' :: (bangEnc b ++ ':' :: ' ' :: rest) :=
        List.drop_left _ _
      simp only [scopeEnc, if_neg hs, List.cons_append, List.append_assoc,
        List.singleton_append, List.nil_append]
      simp only [parseScopePart, eq_self_iff_true, if_true]
      rw [htw, hdrop2]
      simp [mk_toList]
  simp only [parsePrefixCore, hty, hempty, hdrop, hscope, hbang]
  simp

theorem toList_nn : ("\n\n" : String).toList = ['\n', '\n'] := rfl

/-- The character set kept by sanitizeScope in detect.go; every scope of a
classification result consists of these characters. -/
def isScopeChar (c : Char) : Bool :=
  ('a' ≤ c && c ≤ 'z') || ('0' ≤ c && c ≤ '9') || c = '-' || c = '_' || c = '/'

theorem scopeChar_ne_paren (c : Char) (h : isScopeChar c = true) : ¬(c = ')') := by
  rintro rfl
  revert h
  decide

theorem scopeEnc_data (scope : String) :
    ((if scope = "" then "" else "(" ++ scope ++ ")") : String).data = scopeEnc scope := by
  by_cases h : scope = ""
  · simp [h, scopeEnc]
  · have : ((("(" ++ scope ++ ")") : String)).data = scopeEnc scope := by
      have h2 := scopeEnc_toList scope
      rw [if_pos h] at h2
      exact h2
    rw [if_neg h, this]

theorem bangEnc_data (b : Bool) :
    ((if b = true then "!" else "") : String).data = bangEnc b := by
  cases b
  · simp [bangEnc]
  · simp [bangEnc]

theorem roundtrip_aux (ty scope subj body : String) (b : Bool) (opts : Options)
    (hfmt : opts.Format = FormatConventional ∨ opts.Format = FormatGitmoji)
    (hne : ty.toList ≠ []) (hch : ∀ c ∈ ty.toList, isTyDelim c = false)
    (hlow : goToLower ty = ty)
    (hemoji : emojiCode ty = ""
      ∨ ∃ w : List Char, emojiCode ty = String.mk (':' :: (w ++ [':']))
          ∧ ∀ c ∈ w, ¬(c = ':'))
    (hscope : ∀ c ∈ scope.toList, ¬(c = ')')) :
    parseMessageTriple (formatMessage ty scope subj body opts b) = some (ty, scope, b) := by
  have hmain : ∀ (X : String) (restl : List Char),
      X.toList = ty.toList ++ (scopeEnc scope ++ (bangEnc b ++ ':' :: ' ' :: restl)) →
      parseMessageTriple X = some (ty, scope, b) := by
    intro X restl hX
    obtain ⟨c, tl, hty⟩ : ∃ c tl, ty.toList = c :: tl := by
      cases hcs : ty.toList with
      | nil => exact absurd hcs hne
      | cons c tl => exact ⟨c, tl, rfl⟩
    have hcd := hch c (by rw [hty]; exact List.mem_cons_self c tl)
    have hcne : ¬(c = ':') := by
      intro hcc
      rw [hcc] at hcd
      simp [isTyDelim] at hcd
    have hX2 : X.toList
        = c :: (tl ++ (scopeEnc scope ++ (bangEnc b ++ ':' :: ' ' :: restl))) := by
      rw [hX, hty, List.cons_append]
    rw [parseMessageTriple, hX2, stripEmoji_noop c _ hcne, ← List.cons_append, ← hty,
      parsePrefixCore_built ty.toList scope b restl hne hch hscope, mk_toList]
  have hmainE : ∀ (X : String) (w restl : List Char), (∀ c ∈ w, ¬(c = ':')) →
      X.toList = ':' :: (w ++ ':' :: ' ' ::
        (ty.toList ++ (scopeEnc scope ++ (bangEnc b ++ ':' :: ' ' :: restl)))) →
      parseMessageTriple X = some (ty, scope, b) := by
    intro X w restl hw hX
    rw [parseMessageTriple, hX, stripEmoji_code w _ hw,
      parsePrefixCore_built ty.toList scope b restl hne hch hscope, mk_toList]
  simp only [formatMessage, if_pos hfmt]
  by_cases hec : (opts.Emoji = true ∨ opts.Format = FormatGitmoji)
  · rw [if_pos hec]
    rcases hemoji with hem | ⟨w, hem, hw⟩
    · rw [hem, if_neg (show ¬(("" : String) ≠ "") by simp)]
      by_cases hbody : body ≠ ""
      · rw [if_pos hbody]
        exact hmain _ ((trimSubject (lowerFirst subj) opts.MaxSubject).toList
            ++ ('\n' :: '\n' :: body.toList)) (by
          simp [toList_append, toList_nn, toList_colon_space, scopeEnc_toList,
            bangEnc_toList, scopeEnc_data, bangEnc_data, hlow, List.append_assoc])
      · rw [if_neg hbody]
        exact hmain _ (trimSubject (lowerFirst subj) opts.MaxSubject).toList (by
          simp [toList_append, toList_colon_space, scopeEnc_toList,
            bangEnc_toList, scopeEnc_data, bangEnc_data, hlow, List.append_assoc])
    · have hemne : emojiCode ty ≠ "" := by
        rw [hem, Ne, eq_empty_iff_toList, toList_mk]
        simp
      rw [hem, if_pos (show (String.mk (':' :: (w ++ [':']))) ≠ "" by
        rw [← hem]; exact hemne)]
      by_cases hbody : body ≠ ""
      · rw [if_pos hbody]
        exact hmainE _ w ((trimSubject (lowerFirst subj) opts.MaxSubject).toList
            ++ ('\n' :: '\n' :: body.toList)) hw (by
          simp [toList_append, toList_mk, toList_space, toList_nn, toList_colon_space,
            scopeEnc_toList, bangEnc_toList, scopeEnc_data, bangEnc_data, hlow,
            List.append_assoc])
      · rw [if_neg hbody]
        exact hmainE _ w (trimSubject (lowerFirst subj) opts.MaxSubject).toList hw (by
          simp [toList_append, toList_mk, toList_space, toList_colon_space,
            scopeEnc_toList, bangEnc_toList, scopeEnc_data, bangEnc_data, hlow,
            List.append_assoc])
  · rw [if_neg hec]
    by_cases hbody : body ≠ ""
    · rw [if_pos hbody]
      exact hmain _ ((trimSubject (lowerFirst subj) opts.MaxSubject).toList
          ++ ('\n' :: '\n' :: body.toList)) (by
        simp [toList_append, toList_nn, toList_colon_space, scopeEnc_toList,
          bangEnc_toList, scopeEnc_data, bangEnc_data, hlow, List.append_assoc])
    · rw [if_neg hbody]
      exact hmain _ (trimSubject (lowerFirst subj) opts.MaxSubject).toList (by
        simp [toList_append, toList_colon_space, scopeEnc_toList,
          bangEnc_toList, scopeEnc_data, bangEnc_data, hlow, List.append_assoc])

/-- A plain-format option bag. -/
def optsPlain : Options :=
  { optsNone with Format := FormatPlain }

/-- Claim C4 counterexample: the plain format emits no prefix, so two
different classification triples format to the identical message and no
re-parse of the prefix can recover the triple that produced it. -/
theorem c4_cex :
    formatMessage "feat" "core" "Add feature" "" optsPlain true
      = formatMessage "fix" "" "Add feature" "" optsPlain false ∧
    ¬((("feat", "core", true) : String × String × Bool) = ("fix", "", false)) :=
  ⟨rfl, by decide⟩

/-- Claim C4 (corrected): for the conventional and gitmoji formats, with the
commit type one of the ten classifier labels and the scope made of sanitized
scope characters, formatting and then re-parsing the generated message
prefix recovers the type, scope and breaking flag; the plain format emits no
prefix and cannot round-trip. -/
theorem c4_amended (ty scope subj body : String) (b : Bool) (opts : Options)
    (hty : ty ∈ ["feat", "fix", "docs", "test", "refactor", "perf", "style",
      "build", "ci", "chore"])
    (hscope : ∀ c ∈ scope.toList, isScopeChar c = true)
    (hfmt : opts.Format = FormatConventional ∨ opts.Format = FormatGitmoji) :
    parseMessageTriple (formatMessage ty scope subj body opts b)
      = some (ty, scope, b) := by
  have hsc : ∀ c ∈ scope.toList, ¬(c = ')') :=
    fun c hc => scopeChar_ne_paren c (hscope c hc)
  simp only [List.mem_cons, List.mem_singleton, List.not_mem_nil, or_false] at hty
  rcases hty with rfl | rfl | rfl | rfl | rfl | rfl | rfl | rfl | rfl | rfl
  · exact roundtrip_aux _ _ _ _ _ _ hfmt (by decide) (by decide) (by decide)
      (Or.inr ⟨"sparkles".toList, by decide, by decide⟩) hsc
  · exact roundtrip_aux _ _ _ _ _ _ hfmt (by decide) (by decide) (by decide)
      (Or.inr ⟨"bug".toList, by decide, by decide⟩) hsc
  · exact roundtrip_aux _ _ _ _ _ _ hfmt (by decide) (by decide) (by decide)
      (Or.inr ⟨"memo".toList, by decide, by decide⟩) hsc
  · exact roundtrip_aux _ _ _ _ _ _ hfmt (by decide) (by decide) (by decide)
      (Or.inr ⟨"white_check_mark".toList, by decide, by decide⟩) hsc
  · exact roundtrip_aux _ _ _ _ _ _ hfmt (by decide) (by decide) (by decide)
      (Or.inr ⟨"recycle".toList, by decide, by decide⟩) hsc
  · exact roundtrip_aux _ _ _ _ _ _ hfmt (by decide) (by decide) (by decide)
      (Or.inr ⟨"zap".toList, by decide, by decide⟩) hsc
  · exact roundtrip_aux _ _ _ _ _ _ hfmt (by decide) (by decide) (by decide)
      (Or.inr ⟨"art".toList, by decide, by decide⟩) hsc
  · exact roundtrip_aux _ _ _ _ _ _ hfmt (by decide) (by decide) (by decide)
      (Or.inr ⟨"package".toList, by decide, by decide⟩) hsc
  · exact roundtrip_aux _ _ _ _ _ _ hfmt (by decide) (by decide) (by decide)
      (Or.inr ⟨"construction_worker".toList, by decide, by decide⟩) hsc
  · exact roundtrip_aux _ _ _ _ _ _ hfmt (by decide) (by decide) (by decide)
      (Or.inr ⟨"wrench".toList, by decide, by decide⟩) hsc

/-- Claim C4 witness: the conventional format round-trips a concrete breaking
feat message with scope core. -/
theorem c4_witness :
    parseMessageTriple (formatMessage "feat" "core" "Add things" "" optsNone true)
      = some ("feat", "core", true) :=
  c4_amended "feat" "core" "Add things" "" true optsNone (by decide) (by decide)
    (Or.inl rfl)
